import Mathlib

/-!
# Verification of the sellside-highlights pipeline (`6_sellside_highlights.py`)

This file is a shallow embedding of the string-processing and orchestration
core of the sellside-highlights stage of the weekly news pipeline, together
with theorems settling the specification claims about it.

Modelling conventions:
* A Python `str` is modelled as `List Char` (`Str` below).  Python string
  methods (`strip`, `rstrip`, `split`, `startswith`, `endswith`, `lower`,
  `replace`, containment) are modelled by the `py*`-style helpers.
* Character classes of the regular expressions involved (`\s`, `\d`,
  `[A-Za-z]`) are modelled over their ASCII meaning, and the word class
  `\w` additionally counts the CJK Unified Ideographs as word characters,
  as Python does; all other characters the regexes of the pipeline actually
  classify (digits, separators, Latin month names) are ASCII.  `str.lower` is modelled by `Char.toLower`, which agrees
  with Python on ASCII and is the identity on the CJK marker strings used by
  the cleaner.
* The regular-expression matchers (`re.match`/`re.search`/`re.sub` on the
  concrete patterns found in the source) are modelled by explicit functions
  that reproduce the Python leftmost-match, ordered-alternation, greedy/lazy
  backtracking semantics for those concrete patterns; each carries a comment
  with the original pattern.
* Filesystem- and service-effects (`summarize_markdown`, the staging loop,
  the recovery branch of `main`, reading summaries during assembly) are
  modelled by passing the outcome of each external effect explicitly
  (an `Except`/`Bool` field per effect), mirroring the control flow of the source
  on those outcomes, including which exceptions are caught where.
-/

namespace Sellside

/-- Python strings are modelled as lists of characters. -/
abbrev Str := List Char

/-- ASCII model of the Python whitespace class (`\s`, and the default
`str.strip`/`str.rstrip` character set). -/
def pySpace (c : Char) : Bool :=
  c = ' ' || c = '\t' || c = '\n' || c = '\r' || c = '\x0b' || c = '\x0c'

/-- Python `str.lower` (ASCII model; identity on CJK characters). -/
def pyLower (s : Str) : Str := s.map Char.toLower

/-- Strip characters satisfying `p` from the right end (as in `str.rstrip`). -/
def rstripBy (p : Char → Bool) (s : Str) : Str :=
  (s.reverse.dropWhile p).reverse

/-- Python `str.rstrip()` (whitespace). -/
def pyRstrip (s : Str) : Str := rstripBy pySpace s

/-- Python `str.strip()` (whitespace, both ends). -/
def pyStrip (s : Str) : Str := rstripBy pySpace (s.dropWhile pySpace)

/-- Python `str.startswith`. -/
def startsW (pre s : Str) : Bool := decide (s.take pre.length = pre)

/-- Python `str.endswith`. -/
def endsW (suf s : Str) : Bool := decide (s.drop (s.length - suf.length) = suf)

/-- Python substring containment (`needle in hay`). -/
def hasSub (needle : Str) : Str → Bool
  | [] => startsW needle []
  | c :: rest => startsW needle (c :: rest) || hasSub needle rest

/-- Python `text.split("\n")`. -/
def splitLines (s : Str) : List Str := s.splitOn '\n'

/-- Python `"\n".join(lines)`. -/
def joinLines (ls : List Str) : Str := [('\n' : Char)].intercalate ls

/-- The boilerplate-boundary predicate of `_clean_markdown_contents`: the
lowered line contains "disclosures" without "see", or the Chinese
disclaimer marker without its "read more" qualifier. -/
def boundaryLine (line : Str) : Bool :=
  let low := pyLower line
  (hasSub "disclosures".data low && !(hasSub "see".data low)) ||
  (hasSub "免责声明".data low && !(hasSub "阅读".data low))

/-- The copy-until-boundary loop of `_clean_markdown_contents`: every line is
appended, and the loop breaks right after appending a boundary line. -/
def cleanLines : List Str → List Str
  | [] => []
  | l :: rest => if boundaryLine l then [l] else l :: cleanLines rest

/-- `_clean_markdown_contents`: split on newlines, copy lines up to and
including the first boundary line, and rejoin. -/
def _clean_markdown_contents (raw_text : Str) : Str :=
  joinLines (cleanLines (splitLines raw_text))

/-- `os.path.basename` (POSIX): the part after the last `/`. -/
def basename (s : Str) : Str := (s.splitOn '/').getLastD s

/-- `extract_file_id`: basename, drop a case-insensitive `.pdf` extension,
then the last `-`-separated token. -/
def extract_file_id (pdf_name : Str) : Str :=
  let base := basename pdf_name
  let base := if endsW ".pdf".data (pyLower base) then base.take (base.length - 4) else base
  let parts := base.splitOn '-'
  parts.getLastD base

/-! ## Claim C7: `extract_file_id` -/

/-- Spec-side reading of "the last `-`-delimited token": the maximal suffix
containing no `-`. -/
def specLastDashToken (s : Str) : Str :=
  (s.reverse.takeWhile (fun c => c ≠ '-')).reverse

/-- Spec-side reading of "the extension stripped", as amended: only a
case-insensitive `.pdf` extension is removed. -/
def specStripPdfExt (s : Str) : Str :=
  if endsW ".pdf".data (pyLower s) then s.take (s.length - 4) else s

/-! ## `_split_header_and_bullets` (claims C2, C8) -/

/-- Worker for `removeSub`; the fuel (initially the length of the string) only
makes the recursion structural, every step consumes at least one character. -/
def removeSubGo (needle : Str) : Nat → Str → Str
  | _, [] => []
  | 0, s => s
  | fuel + 1, c :: rest =>
    if needle ≠ [] ∧ startsW needle (c :: rest) then
      removeSubGo needle fuel ((c :: rest).drop needle.length)
    else c :: removeSubGo needle fuel rest

/-- Python `s.replace(needle, "")`: delete every (leftmost-first)
occurrence of `needle`. -/
def removeSub (needle s : Str) : Str := removeSubGo needle s.length s

/-- Python `s.strip("*")`-style stripping of one character from both ends. -/
def stripCharEnds (c : Char) (s : Str) : Str :=
  rstripBy (fun x => x = c) (s.dropWhile (fun x => x = c))

/-- The `push_bullet` inner function of `_split_header_and_bullets`,
taking and returning the accumulated bullet list exactly as the Python
closure mutates it.  A line starting with `- ` is kept, `* ` is converted,
a line starting with `#` is ignored, and any other non-blank line is
demoted to a bullet after `replace("**","").replace("*","").replace("#","")`
and stripping (dropped if nothing remains). -/
def pushBulletAcc (bullets : List Str) (ln : Str) : List Str :=
  let s := pyStrip ln
  if s = [] then bullets
  else if startsW "- ".data s then bullets ++ [s]
  else if startsW "* ".data s then bullets ++ ["- ".data ++ pyStrip (s.drop 2)]
  else if !(startsW "#".data s) then
    let cleaned := pyStrip (removeSub "#".data (removeSub "*".data (removeSub "**".data s)))
    if cleaned ≠ [] then bullets ++ ["- ".data ++ cleaned] else bullets
  else bullets

/-- `_split_header_and_bullets`: strip the text, split into rstripped lines,
take the first non-blank line as the header (unwrapping `**...**` or a
leading `- `), and push every later line through `push_bullet`. -/
def _split_header_and_bullets (summary_text : Str) : Str × List Str :=
  let lines := (splitLines (pyStrip summary_text)).map pyRstrip
  match lines.findIdx? (fun ln => decide (pyStrip ln ≠ [])) with
  | none => ([], [])
  | some i =>
    let first := pyStrip (lines.getD i [])
    let rest := lines.drop (i + 1)
    let header :=
      if startsW "**".data first && endsW "**".data first then
        pyStrip (stripCharEnds '*' first)
      else if startsW "- ".data first then pyStrip (first.drop 2)
      else first
    (header, rest.foldl pushBulletAcc [])

/-- Spec-side bullet rule (amended claim C2): `- ` lines kept, `* ` lines
converted, `#`-lines dropped, other non-blank lines demoted to bullets after
removing all `*` and `#` characters — dropped if nothing remains. -/
def specBulletRule (ln : Str) : Option Str :=
  let t := pyStrip ln
  if t = [] then none
  else if startsW "- ".data t then some t
  else if startsW "* ".data t then some ("- ".data ++ pyStrip (t.drop 2))
  else if startsW "#".data t then none
  else
    let core := pyStrip (t.filter (fun c => !(c = '*' || c = '#')))
    if core = [] then none else some ("- ".data ++ core)

/-- Spec-side header rule: the first non-blank line, with a `**...**`
wrapper or a leading `- ` marker stripped. -/
def specHeaderRule (first : Str) : Str :=
  if startsW "**".data first && endsW "**".data first then
    pyStrip (stripCharEnds '*' first)
  else if startsW "- ".data first then pyStrip (first.drop 2)
  else first

/-- Spec-side splitter: header from the first non-blank line, bullets as the
`specBulletRule`-filterMap of the lines after it. -/
def specSplit (s : Str) : Str × List Str :=
  let ls := splitLines (pyStrip s)
  match ls.findIdx? (fun ln => decide (pyStrip ln ≠ [])) with
  | none => ([], [])
  | some i =>
    (specHeaderRule (pyStrip (ls.getD i [])), (ls.drop (i + 1)).filterMap specBulletRule)

/-! ## Claim C4: the staging loop -/

/-- One raw inbox item together with the outcome of the two filesystem
effects staging performs on it (`shutil.copy2` and `Path.unlink`). -/
structure RawItem where
  name : Str
  copyOk : Bool
  unlinkOk : Bool

/-- `move_pdf_to_cdn`: copy the raw PDF to the CDN folder as `<id>.pdf` —
the copy is not wrapped in try/except, so a failure is an uncaught
exception (`Except.error`) — then delete the original, catching a delete
failure and logging it (returned as a warning). -/
def move_pdf_to_cdn (it : RawItem) : Except Str (Str × List Str) :=
  if it.copyOk then
    Except.ok (extract_file_id it.name, if it.unlinkOk then [] else [it.name])
  else Except.error it.name

/-- The sequential staging loop of `main` (no try/except around the body):
returns the item ids staged in order, the logged delete warnings, and the
first uncaught copy exception, which aborts the rest of the loop. -/
def stageLoop : List RawItem → List Str × List Str × Option Str
  | [] => ([], [], none)
  | it :: rest =>
    match move_pdf_to_cdn it with
    | Except.error e => ([], [], some e)
    | Except.ok (fid, ws) =>
      let r := stageLoop rest
      (fid :: r.1, ws ++ r.2.1, r.2.2)

/-! ## Claim C5: `summarize_markdown` -/

/-- Environment of one `summarize_markdown` call: whether the target summary
artifact already exists, and the outcomes of the read, the service call and
the write (`Except.error` models a raised exception, which the enclosing
try/except catches). -/
structure SummarizeEnv where
  outExists : Bool
  readResult : Except Unit Str
  serviceResult : Except Unit Str
  writeOk : Bool

/-- The three possible outcomes of `summarize_markdown` for one item. -/
inductive SummarizeResult where
  | existing
  | produced (summary : Str)
  | failed
deriving DecidableEq

/-- `summarize_markdown`: skip if the target exists; fail on empty cleaned
content; call the service; reject an empty response or one whose stripped
length is `< 10`; write the summary (any exception gives `failed`). -/
def summarize_markdown (env : SummarizeEnv) : SummarizeResult :=
  if env.outExists then SummarizeResult.existing
  else
    match env.readResult with
    | Except.error _ => SummarizeResult.failed
    | Except.ok content =>
      if pyStrip content = [] then SummarizeResult.failed
      else
        match env.serviceResult with
        | Except.error _ => SummarizeResult.failed
        | Except.ok summary =>
          if summary = [] ∨ (pyStrip summary).length < 10 then SummarizeResult.failed
          else if env.writeOk then SummarizeResult.produced summary
          else SummarizeResult.failed

/-! ## Claim C6: recovery when nothing was staged -/

/-- Lexicographic string comparison by code point (Python `<=` on `str`). -/
def strLe : Str → Str → Bool
  | [], _ => true
  | _ :: _, [] => false
  | a :: s, b :: t => if a = b then strLe s t else decide (a < b)

def insertSorted (x : Str) : List Str → List Str
  | [] => [x]
  | y :: rest => if strLe x y then x :: y :: rest else y :: insertSorted x rest

/-- Python `sorted` over strings (insertion sort, lexicographic). -/
def pySorted (l : List Str) : List Str := l.foldr insertSorted []

/-- `pathlib.Path.stem`: the final path component without its last suffix
(a lone leading dot is not a suffix). -/
def pathStem (n : Str) : Str :=
  let base := basename n
  let ext := base.reverse.takeWhile (fun c => c ≠ '.')
  if ext.length = base.length then base
  else if ext.length + 1 = base.length then base
  else base.take (base.length - (ext.length + 1))

/-- The possible outcomes of the zero-staged-items recovery branch of `main`. -/
inductive FallbackPlan where
  | rebuild (results : List (Str × Str))
  | reprocess (staged : List (Str × Str))
  | nothing
deriving DecidableEq

/-- The fallback of `main` when no raw PDFs were staged: if summary artifacts
exist in the temp summary dir, rebuild the highlights from them (one
`(stem, file)` pair per summary, sorted); otherwise, if the CDN folder
exists and holds PDFs, re-derive the staged list from them; otherwise the
run returns without a document. -/
def recoverWhenNothingStaged (summaryFiles : List Str) (cdnExists : Bool)
    (cdnPdfNames : List Str) : FallbackPlan :=
  if summaryFiles ≠ [] then
    FallbackPlan.rebuild ((pySorted summaryFiles).map (fun n => (pathStem n, n)))
  else if cdnExists then
    if cdnPdfNames = [] then FallbackPlan.nothing
    else FallbackPlan.reprocess ((pySorted cdnPdfNames).map (fun n => (extract_file_id n, n)))
  else FallbackPlan.nothing

/-! ## Date model for `_normalize_header` -/

/-- The `\d` class (ASCII): code points 48-57. -/
def isDigitCh (c : Char) : Bool := decide (48 ≤ c.toNat ∧ c.toNat ≤ 57)

/-- The `[1-9]` class: code points 49-57. -/
def isDigit19 (c : Char) : Bool := decide (49 ≤ c.toNat ∧ c.toNat ≤ 57)

def dVal (c : Char) : Nat := c.toNat - 48

def dChar (k : Nat) : Char := Char.ofNat (48 + k % 10)

structure Date where
  y : Nat
  m : Nat
  d : Nat
deriving DecidableEq

def leapYear (y : Nat) : Bool := decide ((y % 4 = 0 ∧ y % 100 ≠ 0) ∨ y % 400 = 0)

def daysInMonth (y m : Nat) : Nat :=
  if m = 2 then (if leapYear y then 29 else 28)
  else if m = 4 ∨ m = 6 ∨ m = 9 ∨ m = 11 then 30
  else 31

/-- The `datetime(y, m, d)` constructor validity check. -/
def isValidDate (y m d : Nat) : Bool :=
  decide (1 ≤ y ∧ y ≤ 9999 ∧ 1 ≤ m ∧ m ≤ 12 ∧ 1 ≤ d ∧ d ≤ daysInMonth y m)

def daysBeforeMonth (y m : Nat) : Nat :=
  (List.range (m - 1)).foldl (fun a i => a + daysInMonth y (i + 1)) 0

/-- Python `date.toordinal` (proleptic Gregorian, day 1 = 0001-01-01);
date subtraction `(a - b).days` on midnight datetimes is the difference of
ordinals. -/
def toOrdinal (dt : Date) : Int :=
  let py : Int := (dt.y : Int) - 1
  365 * py + py / 4 - py / 100 + py / 400 +
    (daysBeforeMonth dt.y dt.m : Int) + (dt.d : Int)

/-- `abs((cand_dt - friday_dt).days) <= 14`. -/
def within14 (c f : Date) : Bool := decide ((toOrdinal c - toOrdinal f).natAbs ≤ 14)

/-- `datetime.strptime(s, "%Y-%m-%d")` on the zero-padded ten-character
form — the only form the pipeline feeds it: `friday_date` and every
candidate are produced by `strftime("%Y-%m-%d")` or matched by
`\d{4}-\d{2}-\d{2}`. -/
def strptimeYMD (s : Str) : Option Date :=
  match s with
  | [y1, y2, y3, y4, s1, m1, m2, s2, d1, d2] =>
    if (s1 = '-' ∧ s2 = '-') ∧ isDigitCh y1 ∧ isDigitCh y2 ∧ isDigitCh y3 ∧
        isDigitCh y4 ∧ isDigitCh m1 ∧ isDigitCh m2 ∧ isDigitCh d1 ∧ isDigitCh d2 then
      let y := 1000 * dVal y1 + 100 * dVal y2 + 10 * dVal y3 + dVal y4
      let m := 10 * dVal m1 + dVal m2
      let d := 10 * dVal d1 + dVal d2
      if isValidDate y m d then some ⟨y, m, d⟩ else none
    else none
  | _ => none

/-- `strftime("%Y-%m-%d")`, zero-padded (years below 10000). -/
def fmtDate (dt : Date) : Str :=
  [dChar (dt.y / 1000), dChar (dt.y / 100), dChar (dt.y / 10), dChar dt.y,
   '-', dChar (dt.m / 10), dChar dt.m, '-', dChar (dt.d / 10), dChar dt.d]

/-! ## Regex machinery of `_normalize_header`

Each function models one concrete Python regex with the backtracking
semantics of `re`: ordered alternation, greedy/lazy quantifiers, leftmost
search. -/

def isColonCh (c : Char) : Bool := c = ':' || c = '：'

def isCommaCh (c : Char) : Bool := c = ',' || c = '，'

/-- Model of the `\w` word class (used for `\b`): ASCII alphanumerics and
underscore, plus CJK Unified Ideographs (alphanumeric in Unicode, hence
word characters for Python `re`); the other non-ASCII characters these
texts contain (fullwidth punctuation) are non-word in Python too. -/
def isWordCh (c : Char) : Bool :=
  isDigitCh c || ('a' ≤ c && c ≤ 'z') || ('A' ≤ c && c ≤ 'Z') || c = '_' ||
    (0x4E00 ≤ c.toNat && c.toNat ≤ 0x9FFF)

def isAsciiLetter (c : Char) : Bool := ('a' ≤ c && c ≤ 'z') || ('A' ≤ c && c ≤ 'Z')

/-- Split at the first `[:：]` character: `(before, after)`. -/
def splitAtFirstColon : Str → Option (Str × Str)
  | [] => none
  | c :: rest =>
    if isColonCh c then some ([], rest)
    else
      match splitAtFirstColon rest with
      | some pq => some (c :: pq.1, pq.2)
      | none => none

/-- `\d{4}-\d{2}-\d{2}` at the start: the ten date characters and the rest. -/
def matchIsoHead : Str → Option (Str × Str)
  | a :: b :: c :: d :: s1 :: e :: f :: s2 :: g :: h :: rest =>
    if (s1 = '-' ∧ s2 = '-') ∧ isDigitCh a ∧ isDigitCh b ∧ isDigitCh c ∧
        isDigitCh d ∧ isDigitCh e ∧ isDigitCh f ∧ isDigitCh g ∧ isDigitCh h then
      some ([a, b, c, d, '-', e, f, '-', g, h], rest)
    else none
  | _ => none

/-- `\s*(.+)$` with the whitespace run fixed at length `i`: `.` excludes
newlines, `$` also matches just before a final newline, and `(.+)` is
greedy, so the group runs to the first newline, which must end the text. -/
def tailAt (q : Str) (i : Nat) : Option Str :=
  let g := (q.drop i).takeWhile (fun c => c ≠ '\n')
  let rest := q.drop (i + g.length)
  if g ≠ [] ∧ (rest = [] ∨ rest = ['\n']) then some g else none

def tailTryFrom (q : Str) : Nat → Option Str
  | 0 => tailAt q 0
  | i + 1 =>
    match tailAt q (i + 1) with
    | some g => some g
    | none => tailTryFrom q i

/-- `\s*(.+)$` matched against the whole of `q`: the greedy whitespace run
backtracks from longest to empty. -/
def tailDotPlus (q : Str) : Option Str :=
  tailTryFrom q (q.takeWhile pySpace).length

/-- `[\s]*(.*)$` attempt with whitespace run of length `i` (group may be
empty). -/
def tail2At (q : Str) (i : Nat) : Option Str :=
  let g := (q.drop i).takeWhile (fun c => c ≠ '\n')
  let rest := q.drop (i + g.length)
  if rest = [] ∨ rest = ['\n'] then some g else none

def tail2TryFrom (q : Str) : Nat → Option Str
  | 0 => tail2At q 0
  | i + 1 =>
    match tail2At q (i + 1) with
    | some g => some g
    | none => tail2TryFrom q i

def tailDotStar (q : Str) : Option Str :=
  tail2TryFrom q (q.takeWhile pySpace).length

/-- Group 2 of the case-1 header regex: on the colon-free nonempty segment
`p`, the engine assigns `\s*[,，]?\s*([^:：]+?)\s*` so that the lazy group
receives `p` minus leading whitespace, at most one comma, more whitespace,
and minus trailing whitespace; when nothing remains, backtracking settles
on the last character of `p` (which then strips to an empty broker). -/
def g2Of (p : Str) : Str :=
  let r1 := p.dropWhile pySpace
  let r2 :=
    match r1 with
    | c :: rs => if isCommaCh c then rs.dropWhile pySpace else r1
    | [] => []
  let core := rstripBy pySpace r2
  if core ≠ [] then core else [p.getLastD ' ']

/-- `re.match(r"^\s*(\d{4}-\d{2}-\d{2})\s*[,，]?\s*([^:：]+?)\s*[:：]\s*(.+)$", header)`.
Nothing before the `[:：]` token can consume a colon, so the matched colon
is the first one; the segment between date and colon must be nonempty. -/
def matchCase1 (header : Str) : Option (Str × Str × Str) :=
  match matchIsoHead (header.dropWhile pySpace) with
  | none => none
  | some (cand, r) =>
    match splitAtFirstColon r with
    | none => none
    | some (p, q) =>
      if p = [] then none
      else
        match tailDotPlus q with
        | none => none
        | some g3 => some (cand, g2Of p, g3)

/-- One step of `re.match(r"^(.*?)[\s]*[:：][\s]*(.*)$", header)`: try the
colons left to right; `pref` is the scanned prefix, reversed.  Group 1 is
lazy, so it takes the prefix minus its trailing whitespace; `.` excludes
newlines, so a group-1 candidate containing a newline fails. -/
def m2Go : Str → Str → Option (Str × Str)
  | _, [] => none
  | pref, c :: rs =>
    if isColonCh c then
      let A := (pref.dropWhile pySpace).reverse
      if A.contains '\n' then m2Go (c :: pref) rs
      else
        match tailDotStar rs with
        | some g => some (A, g)
        | none => m2Go (c :: pref) rs
    else m2Go (c :: pref) rs

def m2Match (header : Str) : Option (Str × Str) := m2Go [] header

/-- The ordered alternation `(0?[1-9]|1[0-2])` followed by a required
dash-or-slash separator: month value and rest after the separator.  The engine prefers the
first alternative and re-enters the alternation when the separator fails. -/
def monthSep (t : Str) : Option (Nat × Str) :=
  let alt2 : Option (Nat × Str) :=
    match t with
    | '1' :: d :: s :: rest =>
      if ('0' ≤ d ∧ d ≤ '2') ∧ (s = '-' ∨ s = '/') then some (10 + dVal d, rest)
      else none
    | _ => none
  let alt1 : Option (Nat × Str) :=
    match t with
    | '0' :: d :: rest => if isDigit19 d then some (dVal d, rest) else none
    | d :: rest => if isDigit19 d then some (dVal d, rest) else none
    | [] => none
  match alt1 with
  | some mr =>
    match mr.2 with
    | s :: rest2 => if s = '-' ∨ s = '/' then some (mr.1, rest2) else alt2
    | [] => alt2
  | none => alt2

/-- `(0?[1-9]|[12]\d|3[01])` with nothing binding after it: ordered
alternation means the first alternative decides, so a two-digit day whose
first digit is 1-9 is truncated to that first digit; the later
alternatives are unreachable. -/
def dayLoose (t : Str) : Option (Nat × Str) :=
  match t with
  | '0' :: d :: rest => if isDigit19 d then some (dVal d, rest) else none
  | c :: rest => if isDigit19 c then some (dVal c, rest) else none
  | [] => none

/-- Ordered candidate list of `(0?[1-9]|[12]\d|3[01])` for contexts where
the regex continues after the group, so backtracking re-enters the
alternation. -/
def dayCands (t : Str) : List (Nat × Str) :=
  (match t with
   | '0' :: d :: rest => if isDigit19 d then [(dVal d, rest)] else []
   | _ => []) ++
  (match t with
   | d :: rest => if isDigit19 d then [(dVal d, rest)] else []
   | _ => []) ++
  (match t with
   | a :: b :: rest =>
     if (a = '1' ∨ a = '2') ∧ isDigitCh b then [(10 * dVal a + dVal b, rest)] else []
   | _ => []) ++
  (match t with
   | '3' :: b :: rest => if b = '0' ∨ b = '1' then [(30 + dVal b, rest)] else []
   | _ => [])

/-- `(20\d{2})`: a 20xx year and the rest. -/
def year20 (t : Str) : Option (Nat × Str) :=
  match t with
  | '2' :: '0' :: a :: b :: rest =>
    if isDigitCh a ∧ isDigitCh b then some (2000 + 10 * dVal a + dVal b, rest) else none
  | _ => none

/-- `\b` after a group: the next character must not be a word character. -/
def boundaryAfter (rest : Str) : Bool :=
  match rest with
  | [] => true
  | c :: _ => !isWordCh c

/-- `[A-Za-z]{3,9}\.?\s+`: since what follows a shorter take of the letter
run would be a letter (neither dot nor whitespace), the token can only be
the full letter run, of length 3..9, then an optional dot, then a nonempty
whitespace run. -/
def monthTokenWs (t : Str) : Option (Str × Str) :=
  let mon := t.takeWhile isAsciiLetter
  if 3 ≤ mon.length ∧ mon.length ≤ 9 then
    let r1 := t.drop mon.length
    let r2 :=
      match r1 with
      | c :: rest => if c = '.' then rest else r1
      | [] => r1
    let ws := r2.takeWhile pySpace
    if ws ≠ [] then some (mon, r2.drop ws.length) else none
  else none

/-- `(20\d{2})[dash or slash](0?[1-9]|1[0-2])[dash or slash](0?[1-9]|[12]\d|3[01])` at the
current position. -/
def matchR1At (t : Str) : Option (Nat × Nat × Nat) :=
  match year20 t with
  | some (y, s1 :: r1) =>
    if s1 = '-' ∨ s1 = '/' then
      match monthSep r1 with
      | some (m, r2) =>
        match dayLoose r2 with
        | some (d, _) => some (y, m, d)
        | none => none
      | none => none
    else none
  | _ => none

def searchR1 : Str → Option (Nat × Nat × Nat)
  | [] => none
  | c :: rest =>
    match matchR1At (c :: rest) with
    | some r => some r
    | none => searchR1 rest

/-- Second alternative `1[0-2]` of the Chinese month group, with its
required `\s*月` continuation. -/
def monthCNAlt2 (t : Str) : Option (Nat × Str) :=
  match t with
  | '1' :: d :: rest =>
    if '0' ≤ d ∧ d ≤ '2' then
      match rest.dropWhile pySpace with
      | c :: r2 => if c = '月' then some (10 + dVal d, r2) else none
      | [] => none
    else none
  | _ => none

def monthCN (t : Str) : Option (Nat × Str) :=
  let alt1 : Option (Nat × Str) :=
    match t with
    | '0' :: d :: rest => if isDigit19 d then some (dVal d, rest) else none
    | d :: rest => if isDigit19 d then some (dVal d, rest) else none
    | [] => none
  match alt1 with
  | some mr =>
    match mr.2.dropWhile pySpace with
    | c :: r2 => if c = '月' then some (mr.1, r2) else monthCNAlt2 t
    | [] => monthCNAlt2 t
  | none => monthCNAlt2 t

/-- `(20\d{2})\s*年\s*(0?[1-9]|1[0-2])\s*月\s*(0?[1-9]|[12]\d|3[01])\s*日?`
at the current position (the trailing `\s*日?` binds nothing). -/
def matchR2At (t : Str) : Option (Nat × Nat × Nat) :=
  match year20 t with
  | some (y, r0) =>
    match r0.dropWhile pySpace with
    | c :: r1 =>
      if c = '年' then
        match monthCN (r1.dropWhile pySpace) with
        | some (m, r2) =>
          match dayLoose (r2.dropWhile pySpace) with
          | some (d, _) => some (y, m, d)
          | none => none
        | none => none
      else none
    | [] => none
  | none => none

def searchR2 : Str → Option (Nat × Nat × Nat)
  | [] => none
  | c :: rest =>
    match matchR2At (c :: rest) with
    | some r => some r
    | none => searchR2 rest

/-- `(0?[1-9]|[12]\d|3[01])\s+([A-Za-z]{3,9})\.?\s+(20\d{2})\b` at the
current position (the leading `\b` is checked by the scanner): returns
`(day, month token, year)`. -/
def matchR3At (t : Str) : Option (Nat × Str × Nat) :=
  (dayCands t).findSome? (fun dc =>
    let ws1 := dc.2.takeWhile pySpace
    if ws1 = [] then none
    else
      match monthTokenWs (dc.2.drop ws1.length) with
      | some (mon, r3) =>
        match year20 r3 with
        | some (y, rest) => if boundaryAfter rest then some (dc.1, mon, y) else none
        | none => none
      | none => none)

/-- Scan for the `D Month YYYY` pattern; the Boolean says whether the
current position satisfies the leading `\b` (start of text or preceded by a
non-word character; the pattern starts with a digit, a word character). -/
def searchR3Go : Bool → Str → Option (Nat × Str × Nat)
  | _, [] => none
  | bOk, c :: rest =>
    match (if bOk then matchR3At (c :: rest) else none) with
    | some r => some r
    | none => searchR3Go (!isWordCh c) rest

def searchR3 (t : Str) : Option (Nat × Str × Nat) := searchR3Go true t

/-- `([A-Za-z]{3,9})\.?\s+(0?[1-9]|[12]\d|3[01]),?\s+(20\d{2})\b` at the
current position: returns `(month token, day, year)`. -/
def matchR4At (t : Str) : Option (Str × Nat × Nat) :=
  match monthTokenWs t with
  | some (mon, r2) =>
    (dayCands r2).findSome? (fun dc =>
      let r3 :=
        match dc.2 with
        | c :: rest => if c = ',' then rest else dc.2
        | [] => dc.2
      let ws2 := r3.takeWhile pySpace
      if ws2 = [] then none
      else
        match year20 (r3.drop ws2.length) with
        | some (y, rest) => if boundaryAfter rest then some (mon, dc.1, y) else none
        | none => none)
  | none => none

def searchR4Go : Bool → Str → Option (Str × Nat × Nat)
  | _, [] => none
  | bOk, c :: rest =>
    match (if bOk then matchR4At (c :: rest) else none) with
    | some r => some r
    | none => searchR4Go (!isWordCh c) rest

def searchR4 (t : Str) : Option (Str × Nat × Nat) := searchR4Go true t

/-- The `MONTHS` table of `_parse_iso_date_from_text`. -/
def monthsTable : List (Str × Nat) :=
  [("jan".data, 1), ("january".data, 1), ("feb".data, 2), ("february".data, 2),
   ("mar".data, 3), ("march".data, 3), ("apr".data, 4), ("april".data, 4),
   ("may".data, 5), ("jun".data, 6), ("june".data, 6), ("jul".data, 7),
   ("july".data, 7), ("aug".data, 8), ("august".data, 8), ("sep".data, 9),
   ("sept".data, 9), ("september".data, 9), ("oct".data, 10), ("october".data, 10),
   ("nov".data, 11), ("november".data, 11), ("dec".data, 12), ("december".data, 12)]

/-- `MONTHS.get(mon.lower())`. -/
def monthIndex (s : Str) : Option Nat :=
  (monthsTable.find? (fun p => decide (p.1 = s))).map (fun p => p.2)

/-- `datetime(y, m, d).strftime("%Y-%m-%d")`; `none` models the
`ValueError` the caller catches (which makes it fall through to the next
pattern). -/
def validFmt (ymd : Nat × Nat × Nat) : Option Str :=
  if isValidDate ymd.1 ymd.2.1 ymd.2.2 then some (fmtDate ⟨ymd.1, ymd.2.1, ymd.2.2⟩)
  else none

/-- `_parse_iso_date_from_text`: try the ISO pattern, the Chinese pattern,
`D Month YYYY`, then `Month D, YYYY`; each pattern contributes only its
first match, and an invalid date or unknown month name falls through to
the next pattern. -/
def _parse_iso_date_from_text (text : Str) : Option Str :=
  if text = [] then none
  else
    match (searchR1 text).bind validFmt with
    | some s => some s
    | none =>
      match (searchR2 text).bind validFmt with
      | some s => some s
      | none =>
        match (searchR3 text).bind (fun r =>
            (monthIndex (pyLower r.2.1)).bind (fun m => validFmt (r.2.2, m, r.1))) with
        | some s => some s
        | none =>
          match (searchR4 text).bind (fun r =>
              (monthIndex (pyLower r.1)).bind (fun m => validFmt (r.2.2, m, r.2.1))) with
          | some s => some s
          | none => none

/-! ## `_strip_leading_date_prefix` and `_normalize_header` -/

/-- Trailing `\s*[,，]?\s*` consumption. -/
def skipWsCommaWs (r : Str) : Str :=
  let r1 := r.dropWhile pySpace
  let r2 :=
    match r1 with
    | c :: rest => if isCommaCh c then rest else r1
    | [] => []
  r2.dropWhile pySpace

/-- `re.sub` of `^\s*(20\d{2})[dash or slash](0?[1-9]|1[0-2])[dash or slash](0?[1-9]|[12]\d|3[01])\s*[,，]?\s*`. -/
def p1Strip (s : Str) : Str :=
  match year20 (s.dropWhile pySpace) with
  | some (_, s1 :: r1) =>
    if s1 = '-' ∨ s1 = '/' then
      match monthSep r1 with
      | some (_, r2) =>
        match dayLoose r2 with
        | some (_, r3) => skipWsCommaWs r3
        | none => s
      | none => s
    else s
  | _ => s

/-- `re.sub` of `^\s*(0?[1-9]|[12]\d|3[01])\s+[A-Za-z]{3,9}\.?\s+(20\d{2})\s*[,，]?\s*`. -/
def p2Strip (s : Str) : Str :=
  match (dayCands (s.dropWhile pySpace)).findSome? (fun dc =>
      let ws1 := dc.2.takeWhile pySpace
      if ws1 = [] then none
      else
        match monthTokenWs (dc.2.drop ws1.length) with
        | some (_, r3) =>
          match year20 r3 with
          | some (_, rest) => some (skipWsCommaWs rest)
          | none => none
        | none => none) with
  | some r => r
  | none => s

/-- `re.sub` of `^\s*[A-Za-z]{3,9}\.?\s+(0?[1-9]|[12]\d|3[01]),?\s+(20\d{2})\s*[,，]?\s*`. -/
def p3Strip (s : Str) : Str :=
  match monthTokenWs (s.dropWhile pySpace) with
  | some (_, r2) =>
    match (dayCands r2).findSome? (fun dc =>
        let r3 :=
          match dc.2 with
          | c :: rest => if c = ',' then rest else dc.2
          | [] => dc.2
        let ws2 := r3.takeWhile pySpace
        if ws2 = [] then none
        else
          match year20 (r3.drop ws2.length) with
          | some (_, rest) => some (skipWsCommaWs rest)
          | none => none) with
    | some r => r
    | none => s
  | none => s

/-- `re.sub` of `^\s*(20\d{2})\s*年\s*(0?[1-9]|1[0-2])\s*月\s*(0?[1-9]|[12]\d|3[01])\s*日?\s*[,，]?\s*`. -/
def p4Strip (s : Str) : Str :=
  match year20 (s.dropWhile pySpace) with
  | some (_, r0) =>
    match r0.dropWhile pySpace with
    | c :: r1 =>
      if c = '年' then
        match monthCN (r1.dropWhile pySpace) with
        | some (_, r2) =>
          match dayLoose (r2.dropWhile pySpace) with
          | some (_, r3) =>
            let r4 := r3.dropWhile pySpace
            let r5 :=
              match r4 with
              | c2 :: rest => if c2 = '日' then rest else r4
              | [] => r4
            skipWsCommaWs r5
          | none => s
        | none => s
      else s
    | [] => s
  | none => s

/-- `_strip_leading_date_prefix`: the four anchored substitutions in order,
then strip. -/
def stripLeadingDate (s : Str) : Str :=
  if s = [] then s
  else pyStrip (p4Strip (p3Strip (p2Strip (p1Strip s))))

/-- Python `s.strip(",，")`. -/
def stripCommaEnds (s : Str) : Str := rstripBy isCommaCh (s.dropWhile isCommaCh)

/-- The generic candidate chain of case 2 of `_normalize_header`:
`_parse_iso_date_from_text(header) or _parse_iso_date_from_text(summary)`,
then — only when the cleaned text is present and non-empty — the cleaned
text. -/
def genericDateIso (header1 summary_text : Str) (cleaned_text : Option Str) :
    Option Str :=
  match _parse_iso_date_from_text header1 with
  | some di => some di
  | none =>
    match _parse_iso_date_from_text summary_text with
    | some di => some di
    | none =>
      match cleaned_text with
      | some c => if c ≠ [] then _parse_iso_date_from_text c else none
      | none => none

/-- `_normalize_header`: normalize a header to
`YYYY-MM-DD,<Broker>: <Title>`, keeping a parsed candidate date only when
it lies within 14 days of the Friday reference date and substituting the
reference date otherwise. -/
def _normalize_header (header summary_text : Str) (cleaned_text : Option Str)
    (friday_date : Str) : Str :=
  let friday_dt := strptimeYMD friday_date
  let header1 := pyStrip header
  match matchCase1 header1 with
  | some cgg =>
    let cand := cgg.1
    let broker := stripCommaEnds (pyStrip cgg.2.1)
    let title := pyStrip cgg.2.2
    let keep : Bool :=
      match friday_dt, strptimeYMD cand with
      | some f, some c => within14 c f
      | _, _ => false
    let date_iso := if keep then cand else friday_date
    date_iso ++ [','] ++ broker ++ [':', ' '] ++ title
  | none =>
    let d2 := genericDateIso header1 summary_text cleaned_text
    let keep : Bool :=
      match d2, friday_dt with
      | some di, some f =>
        (match strptimeYMD di with
         | some c => within14 c f
         | none => false)
      | _, _ => false
    let date_iso :=
      match d2 with
      | some di => if keep then di else friday_date
      | none => friday_date
    let lt :=
      match m2Match header1 with
      | some l_t => (l_t.1, pyStrip l_t.2)
      | none => (header1, [])
    let broker := stripCommaEnds (pyStrip (stripLeadingDate lt.1))
    if lt.2 = [] then
      (if broker = [] then date_iso else date_iso ++ [','] ++ broker)
    else date_iso ++ [','] ++ broker ++ [':', ' '] ++ lt.2

/-- The normalization path applied to one summary: split, then normalize
the header against the reference date. -/
def normalizeSummary (friday_date summary_text : Str) (cleaned_text : Option Str) :
    Str × List Str :=
  let hb := _split_header_and_bullets summary_text
  (_normalize_header hb.1 summary_text cleaned_text friday_date, hb.2)

/-- Spec-side: the successfully parsed embedded-date candidate that the
normalizer reconciles against the reference date — the exact ISO date of a
case-1 header, else the first date the generic extraction chain yields. -/
def specCandidateDate (header summary_text : Str) (cleaned_text : Option Str) :
    Option Date :=
  match matchCase1 (pyStrip header) with
  | some cgg => strptimeYMD cgg.1
  | none => (genericDateIso (pyStrip header) summary_text cleaned_text).bind strptimeYMD

/-! ## Claim C9: the assembler -/

/-- One `(file_id, md_path)` pair handed to `build_highlights_md`, with the
outcomes of its two read effects: `md_path.read_text` (an exception skips
the item) and the optional cleaned markdown used for date extraction. -/
structure BuildItem where
  file_id : Str
  readResult : Except Unit Str
  cleaned : Option Str

/-- Whether the summary read of an item succeeds. -/
def readOk (it : BuildItem) : Bool :=
  match it.readResult with
  | Except.ok _ => true
  | Except.error _ => false

/-- `f"[Report Link](https://auto.bda-news.com/{friday_date}/{file_id}.pdf)"`. -/
def linkLine (friday file_id : Str) : Str :=
  "[Report Link](".data ++ "https://auto.bda-news.com/".data ++ friday ++
    "/".data ++ file_id ++ ".pdf)".data

/-- The lines one loop iteration of `build_highlights_md` appends for an
item: nothing when the summary read raises, otherwise the blank line, the
bolded normalized header, a blank line, the bullets (followed by a blank
line, when non-empty), the report link and a final blank line. -/
def itemBlock (friday : Str) (it : BuildItem) : List Str :=
  match it.readResult with
  | Except.error _ => []
  | Except.ok summary =>
    let hb := _split_header_and_bullets summary
    let header := _normalize_header hb.1 summary it.cleaned friday
    [[], "**".data ++ header ++ "**".data, []] ++
      (if hb.2 = [] then [] else hb.2 ++ [[]]) ++
      [linkLine friday it.file_id, []]

/-- The `out_lines` list of `build_highlights_md`: the title line and a
blank line, then the loop over the items in input order. -/
def highlightsLines (friday : Str) (items : List BuildItem) : List Str :=
  items.foldl (fun acc it => acc ++ itemBlock friday it)
    ["# Sellside highlights for Week – ".data ++ friday, []]

/-- `build_highlights_md`: join the lines, right-strip, final newline. -/
def build_highlights_md (friday : Str) (items : List BuildItem) : Str :=
  pyRstrip (joinLines (highlightsLines friday items)) ++ ['\n']

/-! ## Theorems -/

/-! ## Basic lemmas about the string model -/

theorem cleanLines_eq_take (l : List Str) :
    cleanLines l =
      (match l.findIdx? boundaryLine with
       | some i => l.take (i + 1)
       | none => l) := by
  induction l with
  | nil => simp [cleanLines]
  | cons a t ih =>
    by_cases h : boundaryLine a
    · simp [cleanLines, h, List.findIdx?_cons]
    · simp only [cleanLines, h, if_false, List.findIdx?_cons, Bool.false_eq_true,
        List.findIdx?_succ]
      cases ht : t.findIdx? boundaryLine with
      | none => simp [ht] at ih; simp [ih]
      | some i => simp [ht] at ih; simp [ih, List.take_succ_cons]

theorem mem_cleanLines {y : Str} {l : List Str} (h : y ∈ cleanLines l) : y ∈ l := by
  induction l with
  | nil => simp [cleanLines] at h
  | cons a t ih =>
    by_cases hb : boundaryLine a
    · simp [cleanLines, hb] at h
      simp [h]
    · simp [cleanLines, hb] at h
      rcases h with h | h
      · simp [h]
      · exact List.mem_cons_of_mem _ (ih h)

theorem cleanLines_ne_nil {l : List Str} (h : l ≠ []) : cleanLines l ≠ [] := by
  cases l with
  | nil => exact absurd rfl h
  | cons a t =>
    by_cases hb : boundaryLine a <;> simp [cleanLines, hb]

theorem cleanLines_idem (l : List Str) : cleanLines (cleanLines l) = cleanLines l := by
  induction l with
  | nil => simp [cleanLines]
  | cons a t ih =>
    by_cases hb : boundaryLine a <;> simp [cleanLines, hb, ih]

theorem mem_splitOnP_not {α : Type} {p : α → Bool} {l : List α} {xs : List α}
    (h : l ∈ List.splitOnP p xs) : ∀ a ∈ l, ¬ p a := by
  induction xs generalizing l with
  | nil =>
    simp [List.splitOnP_nil] at h
    simp [h]
  | cons x t ih =>
    rw [List.splitOnP_cons] at h
    by_cases hx : p x
    · rw [if_pos hx] at h
      rcases List.mem_cons.mp h with rfl | h
      · simp
      · exact ih h
    · rw [if_neg hx] at h
      cases hs : List.splitOnP p t with
      | nil => exact absurd hs (List.splitOnP_ne_nil p t)
      | cons s ss =>
        rw [hs, List.modifyHead_cons] at h
        rcases List.mem_cons.mp h with rfl | hmem
        · intro a ha
          rcases List.mem_cons.mp ha with rfl | ha
          · exact hx
          · exact ih (by rw [hs]; exact List.mem_cons_self _ _) a ha
        · exact ih (by rw [hs]; exact List.mem_cons_of_mem _ hmem)

theorem mem_splitOn_not {x : Char} {l : Str} {xs : Str}
    (h : l ∈ List.splitOn x xs) : x ∉ l := by
  intro hx
  have := mem_splitOnP_not (p := (· == x)) h x hx
  simp at this

theorem splitLines_joinLines {ls : List Str} (h1 : ∀ l ∈ ls, ('\n' : Char) ∉ l)
    (h2 : ls ≠ []) : splitLines (joinLines ls) = ls :=
  List.splitOn_intercalate ls '\n' h1 h2

/-- Claim C3 — the cleaner keeps exactly the lines up to and including the
first boundary line ("disclosures" without "see", or the Chinese disclaimer
marker without its qualifier, case-insensitively), and returns the whole
input when no line matches. -/
theorem claim_C3 (raw : Str) :
    _clean_markdown_contents raw =
      (match (splitLines raw).findIdx? boundaryLine with
       | some i => joinLines ((splitLines raw).take (i + 1))
       | none => raw) := by
  unfold _clean_markdown_contents
  rw [cleanLines_eq_take]
  cases h : (splitLines raw).findIdx? boundaryLine with
  | some i => simp
  | none => simpa using List.intercalate_splitOn raw '\n'

/-- Claim C10 — the cleaner is idempotent: cleaning its own output changes
nothing, because the only possible boundary line of the output is its last line. -/
theorem claim_C10 (s : Str) :
    _clean_markdown_contents (_clean_markdown_contents s) = _clean_markdown_contents s := by
  unfold _clean_markdown_contents
  have hsub : ∀ l ∈ cleanLines (splitLines s), ('\n' : Char) ∉ l := by
    intro l hl
    exact mem_splitOn_not (mem_cleanLines hl)
  have hne : cleanLines (splitLines s) ≠ [] := by
    apply cleanLines_ne_nil
    exact List.splitOnP_ne_nil _ s
  rw [splitLines_joinLines hsub hne, cleanLines_idem]

theorem intercalate_cons_ne {α : Type} (c : α) (h : List α) {t : List (List α)}
    (ht : t ≠ []) : [c].intercalate (h :: t) = h ++ c :: [c].intercalate t := by
  cases t with
  | nil => exact absurd rfl ht
  | cons s ss =>
    show (List.intersperse [c] (h :: s :: ss)).flatten = _
    rw [List.intersperse_cons_cons]
    simp [List.intercalate]

theorem intercalate_append_last {α : Type} (c : α) (lastv : List α) {A : List (List α)}
    (hA : A ≠ []) :
    [c].intercalate (A ++ [lastv]) = [c].intercalate A ++ c :: lastv := by
  induction A with
  | nil => exact absurd rfl hA
  | cons a A' ih =>
    cases A' with
    | nil =>
      rw [List.cons_append, List.nil_append,
        intercalate_cons_ne c a (by simp)]
      simp [List.intercalate]
    | cons b B =>
      have hne : (b :: B : List (List α)) ≠ [] := by simp
      rw [List.cons_append,
        intercalate_cons_ne c a (by simp),
        intercalate_cons_ne c a hne,
        ih hne]
      simp

theorem getLastD_splitOn_eq_takeWhile (c : Char) (s : Str) (d : Str) :
    (s.splitOn c).getLastD d = (s.reverse.takeWhile (fun x => x ≠ c)).reverse := by
  have hne : s.splitOn c ≠ [] := List.splitOnP_ne_nil _ s
  obtain ⟨lastv, A, hdecomp⟩ :
      ∃ lastv A, s.splitOn c = A ++ [lastv] := by
    refine ⟨(s.splitOn c).getLast hne, (s.splitOn c).dropLast, ?_⟩
    exact (List.dropLast_append_getLast hne).symm
  have hlast_mem : lastv ∈ s.splitOn c := by
    rw [hdecomp]; simp
  have hlast_noc : c ∉ lastv := mem_splitOn_not hlast_mem
  have hs : s = [c].intercalate (A ++ [lastv]) := by
    rw [← hdecomp, List.intercalate_splitOn]
  have hlastD : (s.splitOn c).getLastD d = lastv := by
    rw [hdecomp]; simp
  rw [hlastD]
  have hall : lastv.reverse.takeWhile (fun x => x ≠ c) = lastv.reverse := by
    rw [List.takeWhile_eq_self_iff]
    intro x hx
    simp only [decide_eq_true_eq, ne_eq]
    intro hxc
    subst hxc
    exact hlast_noc (List.mem_reverse.mp hx)
  cases hA : A with
  | nil =>
    subst hA
    have hsl : s = lastv := by simpa [List.intercalate] using hs
    subst hsl
    rw [hall, List.reverse_reverse]
  | cons a A' =>
    have hs2 : s = [c].intercalate A ++ c :: lastv := by
      rw [hs, intercalate_append_last c lastv (by simp [hA])]
    have hrev : s.reverse = lastv.reverse ++ c :: ([c].intercalate A).reverse := by
      rw [hs2]; simp
    have hcond : (lastv.reverse.takeWhile (fun x => x ≠ c)).length = lastv.reverse.length := by
      rw [hall]
    rw [hrev, List.takeWhile_append, if_pos hcond]
    simp [List.takeWhile_cons]

/-- Counterexample to claim C7 as stated: for the filename
`report-abc.txt`, the code returns `abc.txt` — a non-`.pdf` extension is
not stripped, so the result is not the extension-stripped token `abc`. -/
theorem claim_C7_counterexample :
    extract_file_id "report-abc.txt".data = "abc.txt".data ∧
      extract_file_id "report-abc.txt".data ≠ "abc".data := by
  constructor
  · decide
  · decide

/-- Claim C7 as amended — `extract_file_id` is deterministic and returns the
last `-`-delimited token of the basename of the file, stripping only a
case-insensitive `.pdf` extension first (other extensions are kept); two
files with the same name therefore yield the same item_id. -/
theorem claim_C7_amended :
    (∀ pdf_name : Str,
        extract_file_id pdf_name = specLastDashToken (specStripPdfExt (basename pdf_name))) ∧
      (∀ a b : Str, a = b → extract_file_id a = extract_file_id b) := by
  constructor
  · intro pdf_name
    unfold extract_file_id specLastDashToken specStripPdfExt
    by_cases hp : endsW ".pdf".data (pyLower (basename pdf_name)) = true
    · simp only [hp, if_true]
      exact getLastD_splitOn_eq_takeWhile '-' _ _
    · simp only [hp, if_false, Bool.false_eq_true]
      exact getLastD_splitOn_eq_takeWhile '-' _ _
  · intro a b hab
    rw [hab]

/-- Counterexample to claim C2 as stated: the subsequent line `# Section`
is non-blank, yet the splitter drops it entirely instead of demoting it to
the bullet `- Section`. -/
theorem claim_C2_counterexample :
    (_split_header_and_bullets "Header\n# Section".data).2 = [] ∧
      pyStrip "# Section".data ≠ [] ∧
      (_split_header_and_bullets "Header\n# Section".data).2 ≠ ["- Section".data] := by
  refine ⟨by decide, by decide, by decide⟩

/-! ### Lemmas for the splitter -/

theorem rstripBy_eq_nil_iff {p : Char → Bool} {l : Str} :
    rstripBy p l = [] ↔ ∀ x ∈ l, p x := by
  unfold rstripBy
  rw [List.reverse_eq_nil_iff, List.dropWhile_eq_nil_iff]
  constructor
  · intro h x hx
    exact h x (List.mem_reverse.mpr hx)
  · intro h x hx
    exact h x (List.mem_reverse.mp hx)

theorem rstripBy_cons (p : Char → Bool) (c : Char) (t : Str) :
    rstripBy p (c :: t) =
      (if rstripBy p t = [] then (if p c then [] else [c]) else c :: rstripBy p t) := by
  unfold rstripBy
  rw [show (c :: t).reverse = t.reverse ++ [c] from by simp, List.dropWhile_append]
  by_cases h : t.reverse.dropWhile p = []
  · rw [if_pos (by simp [h]), if_pos (by simpa [rstripBy] using h)]
    by_cases hc : p c <;> simp [List.dropWhile_cons, hc]
  · rw [if_neg (by simpa using h), if_neg (by simpa [rstripBy] using h)]
    simp

theorem rstripBy_cons_of_neg {p : Char → Bool} {c : Char} (t : Str) (hc : ¬ p c) :
    rstripBy p (c :: t) = c :: rstripBy p t := by
  rw [rstripBy_cons]
  by_cases ht : rstripBy p t = [] <;> simp [ht, hc]

theorem dropWhile_rstripBy_comm (p : Char → Bool) (l : Str) :
    (rstripBy p l).dropWhile p = rstripBy p (l.dropWhile p) := by
  induction l with
  | nil => simp [rstripBy]
  | cons c t ih =>
    by_cases hc : p c
    · rw [rstripBy_cons]
      by_cases ht : rstripBy p t = []
      · have hall : ∀ x ∈ t, p x := rstripBy_eq_nil_iff.mp ht
        rw [if_pos ht, if_pos hc, List.dropWhile_cons, if_pos hc,
          List.dropWhile_eq_nil_iff.mpr hall]
        simp [rstripBy]
      · rw [if_neg ht, List.dropWhile_cons, if_pos hc, List.dropWhile_cons, if_pos hc, ih]
    · rw [rstripBy_cons_of_neg t hc, List.dropWhile_cons, if_neg hc,
        List.dropWhile_cons, if_neg hc, rstripBy_cons_of_neg _ hc]

theorem rstripBy_idem (p : Char → Bool) (l : Str) :
    rstripBy p (rstripBy p l) = rstripBy p l := by
  unfold rstripBy
  rw [List.reverse_reverse, List.dropWhile_idempotent]

theorem pyStrip_pyRstrip (x : Str) : pyStrip (pyRstrip x) = pyStrip x := by
  unfold pyStrip pyRstrip
  rw [dropWhile_rstripBy_comm, rstripBy_idem]

theorem startsW_one (c a : Char) (r : Str) : startsW [c] (a :: r) = decide (a = c) := by
  simp [startsW]

theorem startsW_two (c d a b : Char) (r : Str) :
    startsW [c, d] (a :: b :: r) = decide (a = c ∧ b = d) := by
  simp [startsW]

theorem removeSubGo_one (c : Char) :
    ∀ (fuel : Nat) (t : Str), t.length ≤ fuel →
      removeSubGo [c] fuel t = t.filter (fun x => x ≠ c) := by
  intro fuel
  induction fuel with
  | zero =>
    intro t ht
    have ht0 : t = [] := List.eq_nil_of_length_eq_zero (Nat.le_zero.mp ht)
    subst ht0
    simp [removeSubGo]
  | succ n ih =>
    intro t ht
    cases t with
    | nil => simp [removeSubGo]
    | cons a r =>
      rw [removeSubGo, startsW_one]
      by_cases hac : a = c
      · rw [if_pos ⟨by simp, by simp [hac]⟩]
        subst hac
        have hr : r.length ≤ n := by simpa using ht
        simp [ih r hr, List.filter_cons]
      · rw [if_neg (by simp [hac])]
        have hr : r.length ≤ n := by simpa using ht
        simp [ih r hr, List.filter_cons, hac]

theorem removeSub_one (c : Char) (t : Str) :
    removeSub [c] t = t.filter (fun x => x ≠ c) :=
  removeSubGo_one c t.length t le_rfl

theorem filter_removeSubGo_star :
    ∀ (fuel : Nat) (t : Str), t.length ≤ fuel →
      (removeSubGo ['*', '*'] fuel t).filter (fun x => x ≠ '*') =
        t.filter (fun x => x ≠ '*') := by
  intro fuel
  induction fuel with
  | zero =>
    intro t ht
    have ht0 : t = [] := List.eq_nil_of_length_eq_zero (Nat.le_zero.mp ht)
    subst ht0
    simp [removeSubGo]
  | succ n ih =>
    intro t ht
    cases t with
    | nil => simp [removeSubGo]
    | cons a r =>
      cases r with
      | nil =>
        rw [removeSubGo, if_neg (by simp [startsW])]
        simp [removeSubGo]
      | cons b r2 =>
        rw [removeSubGo, startsW_two]
        by_cases hab : a = '*' ∧ b = '*'
        · rw [if_pos ⟨by simp, by simp [hab]⟩]
          have hr : r2.length ≤ n := by simp at ht; omega
          obtain ⟨ha, hb⟩ := hab
          subst ha; subst hb
          rw [show (('*' : Char) :: '*' :: r2).drop ['*', '*'].length = r2 from rfl,
            ih r2 hr]
          simp [List.filter_cons]
        · rw [if_neg (by simp [hab])]
          have hr : (b :: r2).length ≤ n := by simpa using ht
          rw [List.filter_cons, List.filter_cons, ih (b :: r2) hr]

theorem removeSub_chain (s : Str) :
    removeSub "#".data (removeSub "*".data (removeSub "**".data s)) =
      s.filter (fun c => !(c = '*' || c = '#')) := by
  have h1 : removeSub "*".data (removeSub "**".data s) = s.filter (fun x => x ≠ '*') := by
    rw [show "*".data = ['*'] from rfl, removeSub_one]
    exact filter_removeSubGo_star s.length s le_rfl
  rw [h1, show "#".data = ['#'] from rfl, removeSub_one, List.filter_filter]
  apply List.filter_congr
  intro a _
  by_cases h1 : a = '*' <;> by_cases h2 : a = '#' <;> simp [h1, h2]

theorem pushBulletAcc_eq (acc : List Str) (ln : Str) :
    pushBulletAcc acc ln = acc ++ (specBulletRule ln).toList := by
  unfold pushBulletAcc specBulletRule
  dsimp only
  rw [removeSub_chain]
  split_ifs <;> simp_all

theorem foldl_pushBulletAcc (l : List Str) (acc : List Str) :
    l.foldl pushBulletAcc acc = acc ++ l.filterMap specBulletRule := by
  induction l generalizing acc with
  | nil => simp
  | cons a t ih =>
    rw [List.foldl_cons, ih, pushBulletAcc_eq]
    cases h : specBulletRule a <;> simp [List.filterMap_cons, h]

theorem specBulletRule_pyRstrip (ln : Str) :
    specBulletRule (pyRstrip ln) = specBulletRule ln := by
  unfold specBulletRule
  rw [pyStrip_pyRstrip]

/-- Claim C2 as amended — the splitter takes the first non-blank line as the
header (unwrapping `**...**` or a leading `- `), keeps `- ` lines, converts
`* ` lines, and demotes other non-blank lines to bullets after removing the
`*`/`#` markup — except that lines starting with `#` and lines whose markup
stripping leaves nothing are dropped rather than demoted.  The stated
worked example holds. -/
theorem claim_C2_amended :
    (∀ s : Str, _split_header_and_bullets s = specSplit s) ∧
      _split_header_and_bullets "**2025-09-10,BigBank: Title**\n- point one\n- point two".data =
        ("2025-09-10,BigBank: Title".data, ["- point one".data, "- point two".data]) := by
  constructor
  · intro s
    unfold _split_header_and_bullets specSplit
    dsimp only
    rw [List.findIdx?_map]
    have hpred : ((fun ln => decide (pyStrip ln ≠ [])) ∘ pyRstrip) =
        (fun ln => decide (pyStrip ln ≠ [])) := by
      funext ln
      simp [Function.comp, pyStrip_pyRstrip]
    rw [hpred]
    cases h : (splitLines (pyStrip s)).findIdx? (fun ln => decide (pyStrip ln ≠ [])) with
    | none => rfl
    | some i =>
      dsimp only
      have hgetD : (List.map pyRstrip (splitLines (pyStrip s))).getD i [] =
          pyRstrip ((splitLines (pyStrip s)).getD i []) := by
        rw [List.getD_eq_getElem?_getD, List.getD_eq_getElem?_getD, List.getElem?_map]
        cases (splitLines (pyStrip s))[i]? <;> simp [pyRstrip, rstripBy]
      have hdrop : (List.map pyRstrip (splitLines (pyStrip s))).drop (i + 1) =
          List.map pyRstrip ((splitLines (pyStrip s)).drop (i + 1)) :=
        (List.map_drop pyRstrip _ _).symm
      rw [hgetD, hdrop, pyStrip_pyRstrip, foldl_pushBulletAcc, List.filterMap_map,
        List.nil_append]
      have hrule : (specBulletRule ∘ pyRstrip) = specBulletRule := by
        funext ln
        exact specBulletRule_pyRstrip ln
      rw [hrule]
      rfl
  · decide

/-- Counterexample to claim C4 as stated: with two raw items where only
the copy of the first fails, the second item — which would stage fine on its
own — is not staged at all: the copy exception aborts the loop. -/
theorem claim_C4_counterexample :
    (stageLoop [⟨"a-1.pdf".data, false, true⟩, ⟨"b-2.pdf".data, true, true⟩]).1 = [] ∧
      (stageLoop [⟨"b-2.pdf".data, true, true⟩]).1 = ["2".data] ∧
      (stageLoop [⟨"a-1.pdf".data, false, true⟩, ⟨"b-2.pdf".data, true, true⟩]).2.2 =
        some "a-1.pdf".data := by
  refine ⟨by decide, by decide, by decide⟩

/-- Claim C4 as amended — a delete failure while staging one item does not
abort staging of the rest: when every copy succeeds, all items are staged
in order whatever their delete outcomes, delete failures are logged as
warnings, and no exception escapes.  (A copy failure, by contrast, aborts
the staging loop — see the counterexample.) -/
theorem claim_C4_amended (items : List RawItem)
    (hcopy : ∀ it ∈ items, it.copyOk = true) :
    (stageLoop items).1 = items.map (fun it => extract_file_id it.name) ∧
      (stageLoop items).2.1 = (items.filter (fun it => !it.unlinkOk)).map RawItem.name ∧
      (stageLoop items).2.2 = none := by
  induction items with
  | nil => exact ⟨rfl, rfl, rfl⟩
  | cons it rest ih =>
    have hc : it.copyOk = true := hcopy it (by simp)
    have ihr := ih (fun x hx => hcopy x (List.mem_cons_of_mem _ hx))
    by_cases hu : it.unlinkOk = true <;>
      simp [stageLoop, move_pdf_to_cdn, hc, hu, ihr.1, ihr.2.1, ihr.2.2, List.filter_cons]

theorem claim_C4_witness :
    (stageLoop [⟨"a-1.pdf".data, true, false⟩, ⟨"b-2.pdf".data, true, true⟩]).1 =
        ["1".data, "2".data] ∧
      (stageLoop [⟨"a-1.pdf".data, true, false⟩, ⟨"b-2.pdf".data, true, true⟩]).2.1 =
        ["a-1.pdf".data] ∧
      (stageLoop [⟨"a-1.pdf".data, true, false⟩, ⟨"b-2.pdf".data, true, true⟩]).2.2 = none := by
  have h := claim_C4_amended
    [⟨"a-1.pdf".data, true, false⟩, ⟨"b-2.pdf".data, true, true⟩] (by decide)
  refine ⟨?_, ?_, h.2.2⟩
  · rw [h.1]; decide
  · rw [h.2.1]; decide

/-- Counterexample to claim C5 as stated: a service response whose stripped
length is exactly 10 is accepted, although it does not have more than 10
characters — the validation in the code is `len(summary.strip()) < 10`, i.e. at
least 10, not more than 10. -/
theorem claim_C5_counterexample :
    summarize_markdown ⟨false, Except.ok "content".data, Except.ok "abcdefghij".data, true⟩ =
        SummarizeResult.produced "abcdefghij".data ∧
      ¬ ("abcdefghij".data.length > 10) := by
  refine ⟨by decide, by decide⟩

/-- Claim C5 as amended — the summarizer short-circuits with success when
the target artifact exists; fails the item on empty cleaned content or on a
service exception; and accepts a response only if it is non-empty and its
stripped length is at least 10 characters. -/
theorem claim_C5_amended :
    (∀ env : SummarizeEnv, env.outExists = true →
        summarize_markdown env = SummarizeResult.existing) ∧
    (∀ (env : SummarizeEnv) (content : Str), env.outExists = false →
        env.readResult = Except.ok content → pyStrip content = [] →
        summarize_markdown env = SummarizeResult.failed) ∧
    (∀ env : SummarizeEnv, env.outExists = false →
        env.serviceResult = Except.error () →
        summarize_markdown env = SummarizeResult.failed) ∧
    (∀ (env : SummarizeEnv) (s : Str),
        summarize_markdown env = SummarizeResult.produced s →
        s ≠ [] ∧ 10 ≤ (pyStrip s).length) := by
  refine ⟨?_, ?_, ?_, ?_⟩
  · intro env h
    simp [summarize_markdown, h]
  · intro env content h hr hc
    simp [summarize_markdown, h, hr, hc]
  · intro env h hs
    unfold summarize_markdown
    rw [h, hs]
    cases hr : env.readResult with
    | error e => simp
    | ok content => by_cases hc : pyStrip content = [] <;> simp [hc]
  · intro env s h
    unfold summarize_markdown at h
    by_cases he : env.outExists = true
    · rw [if_pos he] at h; exact absurd h (by simp)
    · rw [if_neg he] at h
      cases hr : env.readResult with
      | error e => rw [hr] at h; exact absurd h (by simp)
      | ok content =>
        rw [hr] at h
        dsimp only at h
        by_cases hc : pyStrip content = []
        · rw [if_pos hc] at h; exact absurd h (by simp)
        · rw [if_neg hc] at h
          cases hsv : env.serviceResult with
          | error e => rw [hsv] at h; exact absurd h (by simp)
          | ok summary =>
            rw [hsv] at h
            dsimp only at h
            by_cases hv : summary = [] ∨ (pyStrip summary).length < 10
            · rw [if_pos hv] at h; exact absurd h (by simp)
            · rw [if_neg hv] at h
              by_cases hw : env.writeOk = true
              · rw [if_pos hw] at h
                have hse : summary = s := by
                  cases h; rfl
                subst hse
                push_neg at hv
                exact ⟨hv.1, hv.2⟩
              · rw [if_neg hw] at h; exact absurd h (by simp)

theorem claim_C5_witness :
    summarize_markdown ⟨true, Except.error (), Except.error (), false⟩ =
        SummarizeResult.existing ∧
      summarize_markdown ⟨false, Except.ok "  ".data, Except.error (), true⟩ =
        SummarizeResult.failed ∧
      summarize_markdown ⟨false, Except.ok "text".data, Except.error (), true⟩ =
        SummarizeResult.failed := by
  have h := claim_C5_amended
  exact ⟨h.1 _ rfl, h.2.1 _ "  ".data rfl rfl (by decide), h.2.2.1 _ rfl rfl⟩

theorem length_insertSorted (x : Str) (l : List Str) :
    (insertSorted x l).length = l.length + 1 := by
  induction l with
  | nil => rfl
  | cons y rest ih => by_cases h : strLe x y <;> simp [insertSorted, h, ih]

theorem length_pySorted (l : List Str) : (pySorted l).length = l.length := by
  induction l with
  | nil => rfl
  | cons x rest ih =>
    show (insertSorted x (pySorted rest)).length = rest.length + 1
    rw [length_insertSorted, ih]

/-- Claim C6 — with zero staged items the pipeline does not abort: when
previously produced summary artifacts exist it rebuilds the document input
from exactly one `(stem, file)` entry per summary; when none exist it falls
back to re-deriving staged items from the content store\x27s PDFs. -/
theorem claim_C6 (summaryFiles cdnPdfNames : List Str) (cdnExists : Bool) :
    (summaryFiles ≠ [] →
        recoverWhenNothingStaged summaryFiles cdnExists cdnPdfNames =
          FallbackPlan.rebuild ((pySorted summaryFiles).map (fun n => (pathStem n, n))) ∧
        ((pySorted summaryFiles).map (fun n => (pathStem n, n))).length =
          summaryFiles.length) ∧
    (summaryFiles = [] → cdnExists = true → cdnPdfNames ≠ [] →
        recoverWhenNothingStaged summaryFiles cdnExists cdnPdfNames =
          FallbackPlan.reprocess
            ((pySorted cdnPdfNames).map (fun n => (extract_file_id n, n))) ∧
        ((pySorted cdnPdfNames).map (fun n => (extract_file_id n, n))).length =
          cdnPdfNames.length) := by
  constructor
  · intro hne
    refine ⟨by simp [recoverWhenNothingStaged, hne], ?_⟩
    rw [List.length_map, length_pySorted]
  · intro hnil hcdn hpdfs
    refine ⟨by simp [recoverWhenNothingStaged, hnil, hcdn, hpdfs], ?_⟩
    rw [List.length_map, length_pySorted]

theorem claim_C6_witness :
    recoverWhenNothingStaged ["b.md".data, "a.md".data, "c.md".data] false [] =
        FallbackPlan.rebuild
          [("a".data, "a.md".data), ("b".data, "b.md".data), ("c".data, "c.md".data)] ∧
      ((pySorted ["b.md".data, "a.md".data, "c.md".data]).map
          (fun n => (pathStem n, n))).length = 3 := by
  have h := (claim_C6 ["b.md".data, "a.md".data, "c.md".data] [] false).1 (by decide)
  refine ⟨?_, h.2⟩
  rw [h.1]
  decide

/-! ## Round-trip lemmas between `strptimeYMD` and `fmtDate` -/

theorem digit_toNat_bounds {c : Char} (h : isDigitCh c = true) :
    48 ≤ c.toNat ∧ c.toNat ≤ 57 := by
  simpa [isDigitCh] using h

theorem dChar_eq_digit (k : Nat) {c : Char} (hdig : isDigitCh c = true)
    (h : k % 10 = dVal c) : dChar k = c := by
  have hb := digit_toNat_bounds hdig
  unfold dVal at h
  unfold dChar
  rw [(by omega : 48 + k % 10 = c.toNat), Char.ofNat_toNat]

theorem dVal_dChar (k : Nat) : dVal (dChar k) = k % 10 := by
  unfold dChar dVal
  have h : k % 10 = 0 ∨ k % 10 = 1 ∨ k % 10 = 2 ∨ k % 10 = 3 ∨ k % 10 = 4 ∨
      k % 10 = 5 ∨ k % 10 = 6 ∨ k % 10 = 7 ∨ k % 10 = 8 ∨ k % 10 = 9 := by omega
  rcases h with h | h | h | h | h | h | h | h | h | h <;> rw [h] <;> decide

theorem isDigitCh_dChar (k : Nat) : isDigitCh (dChar k) = true := by
  unfold dChar
  have h : k % 10 = 0 ∨ k % 10 = 1 ∨ k % 10 = 2 ∨ k % 10 = 3 ∨ k % 10 = 4 ∨
      k % 10 = 5 ∨ k % 10 = 6 ∨ k % 10 = 7 ∨ k % 10 = 8 ∨ k % 10 = 9 := by omega
  rcases h with h | h | h | h | h | h | h | h | h | h <;> rw [h] <;> decide

theorem fmtDate_length (dt : Date) : (fmtDate dt).length = 10 := rfl

theorem daysInMonth_le (y m : Nat) : daysInMonth y m ≤ 31 := by
  unfold daysInMonth
  split_ifs <;> omega

theorem fmtDate_digits (y1 y2 y3 y4 m1 m2 d1 d2 : Char)
    (hy1 : isDigitCh y1 = true) (hy2 : isDigitCh y2 = true)
    (hy3 : isDigitCh y3 = true) (hy4 : isDigitCh y4 = true)
    (hm1 : isDigitCh m1 = true) (hm2 : isDigitCh m2 = true)
    (hd1 : isDigitCh d1 = true) (hd2 : isDigitCh d2 = true) :
    fmtDate ⟨1000 * dVal y1 + 100 * dVal y2 + 10 * dVal y3 + dVal y4,
             10 * dVal m1 + dVal m2, 10 * dVal d1 + dVal d2⟩ =
      [y1, y2, y3, y4, '-', m1, m2, '-', d1, d2] := by
  have b1 := digit_toNat_bounds hy1
  have b2 := digit_toNat_bounds hy2
  have b3 := digit_toNat_bounds hy3
  have b4 := digit_toNat_bounds hy4
  have b5 := digit_toNat_bounds hm1
  have b6 := digit_toNat_bounds hm2
  have b7 := digit_toNat_bounds hd1
  have b8 := digit_toNat_bounds hd2
  unfold fmtDate
  dsimp only
  rw [dChar_eq_digit _ hy1 (by unfold dVal; omega),
    dChar_eq_digit _ hy2 (by unfold dVal; omega),
    dChar_eq_digit _ hy3 (by unfold dVal; omega),
    dChar_eq_digit _ hy4 (by unfold dVal; omega),
    dChar_eq_digit _ hm1 (by unfold dVal; omega),
    dChar_eq_digit _ hm2 (by unfold dVal; omega),
    dChar_eq_digit _ hd1 (by unfold dVal; omega),
    dChar_eq_digit _ hd2 (by unfold dVal; omega)]

/-- A successful `strptimeYMD` inverts `fmtDate`: the parsed string is the
canonical format of the parsed date, and that date is valid. -/
theorem strptimeYMD_some {s : Str} {dt : Date} (h : strptimeYMD s = some dt) :
    isValidDate dt.y dt.m dt.d = true ∧ s = fmtDate dt := by
  unfold strptimeYMD at h
  split at h
  case h_2 => exact absurd h (by simp)
  case h_1 y1 y2 y3 y4 s1 m1 m2 s2 d1 d2 =>
    split at h
    case isFalse => exact absurd h (by simp)
    case isTrue hc =>
      obtain ⟨⟨hs1, hs2⟩, hy1, hy2, hy3, hy4, hm1, hm2, hd1, hd2⟩ := hc
      subst hs1; subst hs2
      dsimp only at h
      split at h
      case isFalse => exact absurd h (by simp)
      case isTrue hv =>
        have hdt : dt = ⟨1000 * dVal y1 + 100 * dVal y2 + 10 * dVal y3 + dVal y4,
            10 * dVal m1 + dVal m2, 10 * dVal d1 + dVal d2⟩ := by
          cases h
          rfl
        subst hdt
        exact ⟨hv, (fmtDate_digits y1 y2 y3 y4 m1 m2 d1 d2
          hy1 hy2 hy3 hy4 hm1 hm2 hd1 hd2).symm⟩

/-- `strptimeYMD` parses back what `fmtDate` prints, for a valid date. -/
theorem strptimeYMD_fmtDate {y m d : Nat} (h : isValidDate y m d = true) :
    strptimeYMD (fmtDate ⟨y, m, d⟩) = some ⟨y, m, d⟩ := by
  have hb : 1 ≤ y ∧ y ≤ 9999 ∧ 1 ≤ m ∧ m ≤ 12 ∧ 1 ≤ d ∧ d ≤ daysInMonth y m := by
    simpa [isValidDate] using h
  have hd31 := daysInMonth_le y m
  unfold fmtDate strptimeYMD
  dsimp only
  rw [if_pos ⟨⟨rfl, rfl⟩, isDigitCh_dChar _, isDigitCh_dChar _, isDigitCh_dChar _,
    isDigitCh_dChar _, isDigitCh_dChar _, isDigitCh_dChar _, isDigitCh_dChar _,
    isDigitCh_dChar _⟩]
  have ey : 1000 * dVal (dChar (y / 1000)) + 100 * dVal (dChar (y / 100)) +
      10 * dVal (dChar (y / 10)) + dVal (dChar y) = y := by
    rw [dVal_dChar, dVal_dChar, dVal_dChar, dVal_dChar]
    omega
  have em : 10 * dVal (dChar (m / 10)) + dVal (dChar m) = m := by
    rw [dVal_dChar, dVal_dChar]
    omega
  have ed : 10 * dVal (dChar (d / 10)) + dVal (dChar d) = d := by
    rw [dVal_dChar, dVal_dChar]
    omega
  rw [ey, em, ed, if_pos h]

/-! ## Validity of the extraction chain, and take-10 helpers -/

theorem validFmt_some {x : Nat × Nat × Nat} {s : Str} (h : validFmt x = some s) :
    isValidDate x.1 x.2.1 x.2.2 = true ∧ s = fmtDate ⟨x.1, x.2.1, x.2.2⟩ := by
  unfold validFmt at h
  split at h
  case isTrue hv =>
    cases h
    exact ⟨hv, rfl⟩
  case isFalse => exact absurd h (by simp)

theorem parse_iso_valid {t s : Str} (h : _parse_iso_date_from_text t = some s) :
    ∃ dt : Date, isValidDate dt.y dt.m dt.d = true ∧ s = fmtDate dt := by
  unfold _parse_iso_date_from_text at h
  split at h
  case isTrue => exact absurd h (by simp)
  case isFalse =>
    split at h
    case h_1 s1 heq =>
      cases h
      obtain ⟨a, _, hv⟩ := Option.bind_eq_some.mp heq
      exact ⟨⟨a.1, a.2.1, a.2.2⟩, (validFmt_some hv).1, (validFmt_some hv).2⟩
    case h_2 =>
      split at h
      case h_1 s1 heq =>
        cases h
        obtain ⟨a, _, hv⟩ := Option.bind_eq_some.mp heq
        exact ⟨⟨a.1, a.2.1, a.2.2⟩, (validFmt_some hv).1, (validFmt_some hv).2⟩
      case h_2 =>
        split at h
        case h_1 s1 heq =>
          cases h
          obtain ⟨r, _, h2⟩ := Option.bind_eq_some.mp heq
          obtain ⟨m, _, hv⟩ := Option.bind_eq_some.mp h2
          exact ⟨⟨r.2.2, m, r.1⟩, (validFmt_some hv).1, (validFmt_some hv).2⟩
        case h_2 =>
          split at h
          case h_1 s1 heq =>
            cases h
            obtain ⟨r, _, h2⟩ := Option.bind_eq_some.mp heq
            obtain ⟨m, _, hv⟩ := Option.bind_eq_some.mp h2
            exact ⟨⟨r.2.2, m, r.2.1⟩, (validFmt_some hv).1, (validFmt_some hv).2⟩
          case h_2 => exact absurd h (by simp)

theorem genericDateIso_valid {h1 su : Str} {cl : Option Str} {s : Str}
    (h : genericDateIso h1 su cl = some s) :
    ∃ dt : Date, isValidDate dt.y dt.m dt.d = true ∧ s = fmtDate dt := by
  unfold genericDateIso at h
  split at h
  case h_1 s1 heq =>
    cases h
    exact parse_iso_valid heq
  case h_2 =>
    split at h
    case h_1 s1 heq =>
      cases h
      exact parse_iso_valid heq
    case h_2 =>
      split at h
      case h_1 c =>
        split at h
        case isTrue => exact parse_iso_valid h
        case isFalse => exact absurd h (by simp)
      case h_2 => exact absurd h (by simp)

theorem take10_append {l : Str} (r : Str) (h : l.length = 10) :
    (l ++ r).take 10 = l := by
  rw [← h, List.take_left]

theorem take10_self {l : Str} (h : l.length = 10) : l.take 10 = l := by
  rw [← h, List.take_length]

theorem take10_block {d b t2 : Str} (h : d.length = 10) :
    (d ++ [','] ++ b ++ [':', ' '] ++ t2).take 10 = d := by
  simp only [List.append_assoc]
  exact take10_append _ h

theorem take10_out {d b t2 : Str} (h : d.length = 10) :
    (if t2 = [] then (if b = [] then d else d ++ [','] ++ b)
     else d ++ [','] ++ b ++ [':', ' '] ++ t2).take 10 = d := by
  by_cases ht : t2 = []
  · rw [if_pos ht]
    by_cases hb : b = []
    · rw [if_pos hb]
      exact take10_self h
    · rw [if_neg hb]
      simp only [List.append_assoc]
      exact take10_append _ h
  · rw [if_neg ht]
    exact take10_block h

theorem matchIsoHead_length {t cand r : Str} (h : matchIsoHead t = some (cand, r)) :
    cand.length = 10 := by
  unfold matchIsoHead at h
  split at h
  case h_2 => exact absurd h (by simp)
  case h_1 a b c d s1 e f s2 g hh rest =>
    split at h
    case isFalse => exact absurd h (by simp)
    case isTrue =>
      cases h
      rfl

theorem matchCase1_length {hd : Str} {cgg : Str × Str × Str}
    (h : matchCase1 hd = some cgg) : cgg.1.length = 10 := by
  unfold matchCase1 at h
  split at h
  case h_1 => exact absurd h (by simp)
  case h_2 cand r heq =>
    split at h
    case h_1 => exact absurd h (by simp)
    case h_2 p q hsp =>
      split at h
      case isTrue => exact absurd h (by simp)
      case isFalse =>
        split at h
        case h_1 => exact absurd h (by simp)
        case h_2 g3 htail =>
          cases h
          exact matchIsoHead_length heq

/-- The date field of every normalized header: the first ten characters of
the output are the parsed candidate date exactly when it lies within 14
days of the reference date, and the reference date otherwise. -/
theorem normalize_date_field (header summary : Str) (cleaned : Option Str)
    (fr : Str) (R : Date) (hfr : strptimeYMD fr = some R) :
    (_normalize_header header summary cleaned fr).take 10 =
      (match specCandidateDate header summary cleaned with
       | some c => if within14 c R then fmtDate c else fr
       | none => fr) := by
  have hfrlen : fr.length = 10 := by
    rw [(strptimeYMD_some hfr).2, fmtDate_length]
  unfold _normalize_header specCandidateDate
  dsimp only
  rw [hfr]
  generalize hm : matchCase1 (pyStrip header) = mc
  cases mc with
  | some cgg =>
    dsimp only
    have hlen := matchCase1_length hm
    cases hc : strptimeYMD cgg.1 with
    | none =>
      dsimp only
      exact take10_block hfrlen
    | some c =>
      dsimp only
      by_cases hk : within14 c R = true
      · rw [if_pos hk, if_pos hk, take10_block hlen]
        exact (strptimeYMD_some hc).2
      · rw [if_neg hk, if_neg hk]
        exact take10_block hfrlen
  | none =>
    dsimp only
    generalize hd : genericDateIso (pyStrip header) summary cleaned = gd
    cases gd with
    | none =>
      dsimp only
      cases m2Match (pyStrip header) with
      | some l_t =>
        dsimp only
        exact take10_out hfrlen
      | none =>
        dsimp only
        exact take10_out hfrlen
    | some di =>
      dsimp only
      obtain ⟨v, hvalid, hdi⟩ := genericDateIso_valid hd
      have hstrp : strptimeYMD di = some v := by
        rw [hdi]
        cases v
        exact strptimeYMD_fmtDate hvalid
      rw [hstrp]
      dsimp only [Option.bind]
      rw [hstrp]
      dsimp only
      have hdilen : di.length = 10 := by
        rw [hdi, fmtDate_length]
      by_cases hk : within14 v R = true
      · rw [if_pos hk, if_pos hk]
        cases m2Match (pyStrip header) with
        | some l_t =>
          dsimp only
          rw [take10_out hdilen]
          exact hdi
        | none =>
          dsimp only
          rw [take10_out hdilen]
          exact hdi
      · rw [if_neg hk, if_neg hk]
        cases m2Match (pyStrip header) with
        | some l_t =>
          dsimp only
          exact take10_out hfrlen
        | none =>
          dsimp only
          exact take10_out hfrlen

/-- Claim C1 — for every header/summary text and trusted reference date
`R`, the normalizer accepts a successfully parsed embedded date `D` only if
`|D − R| ≤ 14` days, and otherwise substitutes `R` itself: the date field
(first ten characters) of the normalized header is the canonical format of
the parsed candidate exactly when it lies within the window, and the
reference date string otherwise. -/
theorem claim_C1 (header summary : Str) (cleaned : Option Str) (fr : Str) (R : Date)
    (hfr : strptimeYMD fr = some R) :
    (_normalize_header header summary cleaned fr).take 10 =
      (match specCandidateDate header summary cleaned with
       | some c => if (toOrdinal c - toOrdinal R).natAbs ≤ 14 then fmtDate c else fr
       | none => fr) := by
  rw [normalize_date_field header summary cleaned fr R hfr]
  cases specCandidateDate header summary cleaned with
  | none => rfl
  | some c =>
    dsimp only
    by_cases h : (toOrdinal c - toOrdinal R).natAbs ≤ 14
    · rw [if_pos h, if_pos (show within14 c R = true from decide_eq_true h)]
    · rw [if_neg h, if_neg (show ¬ within14 c R = true from fun hh => h (of_decide_eq_true hh))]

/-- Boundary instances of claim C1 at the reference date 2025-09-05:
an embedded date at `R+10` and at exactly `R+14` is kept, one at `R+15`
and at `R+30` is replaced by `R`. -/
theorem claim_C1_witness :
    (_normalize_header "2025-09-15,BigBank: Title".data [] none "2025-09-05".data).take 10 =
        "2025-09-15".data ∧
      (_normalize_header "2025-09-19,BigBank: Title".data [] none "2025-09-05".data).take 10 =
        "2025-09-19".data ∧
      (_normalize_header "2025-09-20,BigBank: Title".data [] none "2025-09-05".data).take 10 =
        "2025-09-05".data ∧
      (_normalize_header "2025-10-05,BigBank: Title".data [] none "2025-09-05".data).take 10 =
        "2025-09-05".data := by
  refine ⟨?_, ?_, ?_, ?_⟩
  · exact (claim_C1 "2025-09-15,BigBank: Title".data [] none "2025-09-05".data
      ⟨2025, 9, 5⟩ (by decide)).trans (by decide)
  · exact (claim_C1 "2025-09-19,BigBank: Title".data [] none "2025-09-05".data
      ⟨2025, 9, 5⟩ (by decide)).trans (by decide)
  · exact (claim_C1 "2025-09-20,BigBank: Title".data [] none "2025-09-05".data
      ⟨2025, 9, 5⟩ (by decide)).trans (by decide)
  · exact (claim_C1 "2025-10-05,BigBank: Title".data [] none "2025-09-05".data
      ⟨2025, 9, 5⟩ (by decide)).trans (by decide)

/-! ## Character-conservation lemmas (for claim C8) -/

theorem suffix_cons_tail {l t : Str} (c : Char) (h : l <:+ t) : l <:+ c :: t :=
  h.trans (List.suffix_cons c t)

theorem skipWsCommaWs_suffix (r : Str) : skipWsCommaWs r <:+ r := by
  unfold skipWsCommaWs
  dsimp only
  have h1 : r.dropWhile pySpace <:+ r := List.dropWhile_suffix _
  cases hr : r.dropWhile pySpace with
  | nil =>
    dsimp only
    exact List.nil_suffix
  | cons c rest =>
    rw [hr] at h1
    dsimp only
    by_cases hc : isCommaCh c = true
    · rw [if_pos hc]
      exact ((List.dropWhile_suffix _).trans
        (suffix_cons_tail c (List.suffix_refl rest))).trans h1
    · rw [if_neg hc]
      exact (List.dropWhile_suffix _).trans h1

theorem year20_suffix {t rest : Str} {y : Nat} (h : year20 t = some (y, rest)) :
    rest <:+ t := by
  unfold year20 at h
  split at h
  case h_2 => exact absurd h (by simp)
  case h_1 a b r =>
    split at h
    case isFalse => exact absurd h (by simp)
    case isTrue =>
      cases h
      exact suffix_cons_tail _ (suffix_cons_tail _ (suffix_cons_tail _ (List.suffix_cons _ _)))

theorem monthSep_suffix {t rest : Str} {m : Nat} (h : monthSep t = some (m, rest)) :
    rest <:+ t := by
  unfold monthSep at h
  dsimp only at h
  split at h
  case h_1 mr heq =>
    have hmr : mr.2 <:+ t := by
      split at heq
      case h_1 d r0 =>
        split at heq
        case isTrue =>
          cases heq
          exact suffix_cons_tail _ (List.suffix_cons _ _)
        case isFalse => exact absurd heq (by simp)
      case h_2 d r0 =>
        split at heq
        case isTrue =>
          cases heq
          exact List.suffix_cons _ _
        case isFalse => exact absurd heq (by simp)
      case h_3 => exact absurd heq (by simp)
    split at h
    case h_1 s rest2 hmr2 =>
      split at h
      case isTrue =>
        cases h
        rw [hmr2] at hmr
        exact (List.suffix_cons _ _).trans hmr
      case isFalse =>
        split at h
        case h_1 d s0 r0 =>
          split at h
          case isTrue =>
            cases h
            exact suffix_cons_tail _ (suffix_cons_tail _ (List.suffix_cons _ _))
          case isFalse => exact absurd h (by simp)
        case h_2 => exact absurd h (by simp)
    case h_2 hmr2 =>
      split at h
      case h_1 d s0 r0 =>
        split at h
        case isTrue =>
          cases h
          exact suffix_cons_tail _ (suffix_cons_tail _ (List.suffix_cons _ _))
        case isFalse => exact absurd h (by simp)
      case h_2 => exact absurd h (by simp)
  case h_2 =>
    split at h
    case h_1 d s0 r0 =>
      split at h
      case isTrue =>
        cases h
        exact suffix_cons_tail _ (suffix_cons_tail _ (List.suffix_cons _ _))
      case isFalse => exact absurd h (by simp)
    case h_2 => exact absurd h (by simp)

theorem dayLoose_suffix {t rest : Str} {d : Nat} (h : dayLoose t = some (d, rest)) :
    rest <:+ t := by
  unfold dayLoose at h
  split at h
  case h_1 =>
    split at h
    case isTrue =>
      cases h
      exact suffix_cons_tail _ (List.suffix_cons _ _)
    case isFalse => exact absurd h (by simp)
  case h_2 =>
    split at h
    case isTrue =>
      cases h
      exact List.suffix_cons _ _
    case isFalse => exact absurd h (by simp)
  case h_3 => exact absurd h (by simp)

theorem dayCands_suffix {t : Str} {dc : Nat × Str} (h : dc ∈ dayCands t) :
    dc.2 <:+ t := by
  unfold dayCands at h
  simp only [List.mem_append] at h
  rcases h with ((h | h) | h) | h
  · split at h
    case h_2 => exact absurd h (by simp)
    case h_1 d r =>
      by_cases hd : isDigit19 d = true
      · rw [if_pos hd] at h
        simp only [List.mem_singleton] at h
        subst h
        exact suffix_cons_tail _ (List.suffix_cons _ _)
      · rw [if_neg hd] at h
        exact absurd h (by simp)
  · split at h
    case h_2 => exact absurd h (by simp)
    case h_1 d r =>
      by_cases hd : isDigit19 d = true
      · rw [if_pos hd] at h
        simp only [List.mem_singleton] at h
        subst h
        exact List.suffix_cons _ _
      · rw [if_neg hd] at h
        exact absurd h (by simp)
  · split at h
    case h_2 => exact absurd h (by simp)
    case h_1 a b r =>
      by_cases hd : (a = '1' ∨ a = '2') ∧ isDigitCh b = true
      · rw [if_pos hd] at h
        simp only [List.mem_singleton] at h
        subst h
        exact suffix_cons_tail _ (List.suffix_cons _ _)
      · rw [if_neg hd] at h
        exact absurd h (by simp)
  · split at h
    case h_2 => exact absurd h (by simp)
    case h_1 b r =>
      by_cases hd : b = '0' ∨ b = '1'
      · rw [if_pos hd] at h
        simp only [List.mem_singleton] at h
        subst h
        exact suffix_cons_tail _ (List.suffix_cons _ _)
      · rw [if_neg hd] at h
        exact absurd h (by simp)

theorem monthCNAlt2_suffix {t rest : Str} {m : Nat}
    (h : monthCNAlt2 t = some (m, rest)) : rest <:+ t := by
  unfold monthCNAlt2 at h
  split at h
  case h_2 => exact absurd h (by simp)
  case h_1 d r0 =>
    split at h
    case isFalse => exact absurd h (by simp)
    case isTrue =>
      split at h
      case h_2 => exact absurd h (by simp)
      case h_1 r1 c r2 hdw =>
        split at h
        case isFalse => exact absurd h (by simp)
        case isTrue =>
          cases h
          refine suffix_cons_tail _ (suffix_cons_tail _
            ((?_ : _ <:+ r0.dropWhile pySpace).trans (List.dropWhile_suffix _)))
          rw [hdw]
          exact List.suffix_cons _ _

theorem monthCN_suffix {t rest : Str} {m : Nat} (h : monthCN t = some (m, rest)) :
    rest <:+ t := by
  unfold monthCN at h
  dsimp only at h
  split at h
  case h_2 => exact monthCNAlt2_suffix h
  case h_1 mr heq =>
    have hmr : mr.2 <:+ t := by
      split at heq
      case h_1 d r0 =>
        split at heq
        case isTrue =>
          cases heq
          exact suffix_cons_tail _ (List.suffix_cons _ _)
        case isFalse => exact absurd heq (by simp)
      case h_2 d r0 =>
        split at heq
        case isTrue =>
          cases heq
          exact List.suffix_cons _ _
        case isFalse => exact absurd heq (by simp)
      case h_3 => exact absurd heq (by simp)
    split at h
    case h_2 => exact monthCNAlt2_suffix h
    case h_1 c r2 hdw =>
      split at h
      case isFalse => exact monthCNAlt2_suffix h
      case isTrue =>
        cases h
        refine ((?_ : _ <:+ mr.2.dropWhile pySpace).trans
          (List.dropWhile_suffix _)).trans hmr
        rw [hdw]
        exact List.suffix_cons _ _

theorem monthTokenWs_suffix {t mon rest : Str} (h : monthTokenWs t = some (mon, rest)) :
    rest <:+ t := by
  unfold monthTokenWs at h
  dsimp only at h
  split at h
  case isFalse => exact absurd h (by simp)
  case isTrue =>
    split at h
    case isFalse => exact absurd h (by simp)
    case isTrue =>
      cases h
      have h2 : (match t.drop (t.takeWhile isAsciiLetter).length with
          | c :: rest2 =>
            if c = '.' then rest2 else t.drop (t.takeWhile isAsciiLetter).length
          | [] => t.drop (t.takeWhile isAsciiLetter).length) <:+
          t.drop (t.takeWhile isAsciiLetter).length := by
        split
        case h_2 => exact List.suffix_refl _
        case h_1 c rest2 hr =>
          by_cases hc : c = '.'
          · rw [if_pos hc, hr]
            exact List.suffix_cons _ _
          · rw [if_neg hc]
      exact (List.drop_suffix _ _).trans (h2.trans (List.drop_suffix _ _))

theorem p1Strip_suffix (s : Str) : p1Strip s <:+ s := by
  unfold p1Strip
  split
  case h_2 => exact List.suffix_refl s
  case h_1 y s1 r1 hy =>
    have hr1 : s1 :: r1 <:+ s := (year20_suffix hy).trans (List.dropWhile_suffix _)
    split
    case isFalse => exact List.suffix_refl s
    case isTrue =>
      split
      case h_2 => exact List.suffix_refl s
      case h_1 m r2 hmsep =>
        split
        case h_2 => exact List.suffix_refl s
        case h_1 d r3 hday =>
          exact (skipWsCommaWs_suffix r3).trans ((dayLoose_suffix hday).trans
            ((monthSep_suffix hmsep).trans ((List.suffix_cons s1 r1).trans hr1)))

theorem p2Strip_suffix (s : Str) : p2Strip s <:+ s := by
  unfold p2Strip
  split
  case h_2 => exact List.suffix_refl s
  case h_1 r hfind =>
    obtain ⟨dc, hdc, hf⟩ := List.exists_of_findSome?_eq_some hfind
    have hdc2 : dc.2 <:+ s := (dayCands_suffix hdc).trans (List.dropWhile_suffix _)
    dsimp only at hf
    split at hf
    case isTrue => exact absurd hf (by simp)
    case isFalse =>
      split at hf
      case h_2 => exact absurd hf (by simp)
      case h_1 mon r3 hmt =>
        split at hf
        case h_2 => exact absurd hf (by simp)
        case h_1 y rest hy =>
          cases hf
          exact (skipWsCommaWs_suffix rest).trans ((year20_suffix hy).trans
            ((monthTokenWs_suffix hmt).trans ((List.drop_suffix _ _).trans hdc2)))

theorem p3Strip_suffix (s : Str) : p3Strip s <:+ s := by
  unfold p3Strip
  split
  case h_2 => exact List.suffix_refl s
  case h_1 mon r2 hmt =>
    have hr2 : r2 <:+ s := (monthTokenWs_suffix hmt).trans (List.dropWhile_suffix _)
    split
    case h_2 => exact List.suffix_refl s
    case h_1 r hfind =>
      obtain ⟨dc, hdc, hf⟩ := List.exists_of_findSome?_eq_some hfind
      have hdc2 : dc.2 <:+ s := (dayCands_suffix hdc).trans hr2
      dsimp only at hf
      have hcomma : (match dc.2 with
          | c :: rest => if c = ',' then rest else dc.2
          | [] => dc.2) <:+ dc.2 := by
        split
        case h_2 => exact List.suffix_refl _
        case h_1 c rest hc =>
          by_cases hcc : c = ','
          · rw [if_pos hcc, hc]
            exact List.suffix_cons _ _
          · rw [if_neg hcc]
      split at hf
      case isTrue => exact absurd hf (by simp)
      case isFalse =>
        split at hf
        case h_2 => exact absurd hf (by simp)
        case h_1 y rest hy =>
          cases hf
          exact (skipWsCommaWs_suffix rest).trans ((year20_suffix hy).trans
            ((List.drop_suffix _ _).trans (hcomma.trans hdc2)))

theorem p4Strip_suffix (s : Str) : p4Strip s <:+ s := by
  unfold p4Strip
  split
  case h_2 => exact List.suffix_refl s
  case h_1 y r0 hy =>
    have hr0 : r0 <:+ s := (year20_suffix hy).trans (List.dropWhile_suffix _)
    split
    case h_2 => exact List.suffix_refl s
    case h_1 c r1 hc1 =>
      have hr1 : r1 <:+ r0 := by
        have : c :: r1 <:+ r0 := by
          rw [← hc1]
          exact List.dropWhile_suffix _
        exact (List.suffix_cons c r1).trans this
      split
      case isFalse => exact List.suffix_refl s
      case isTrue =>
        split
        case h_2 => exact List.suffix_refl s
        case h_1 m r2 hcn =>
          split
          case h_2 => exact List.suffix_refl s
          case h_1 d r3 hday =>
            dsimp only
            have hr3 : r3 <:+ r1 :=
              ((dayLoose_suffix hday).trans (List.dropWhile_suffix _)).trans
                ((monthCN_suffix hcn).trans (List.dropWhile_suffix _))
            have hday2 : (match r3.dropWhile pySpace with
                | c2 :: rest => if c2 = '日' then rest else r3.dropWhile pySpace
                | [] => r3.dropWhile pySpace) <:+ r3.dropWhile pySpace := by
              split
              case h_2 => exact List.suffix_refl _
              case h_1 c2 rest hcr =>
                by_cases hcc : c2 = '日'
                · rw [if_pos hcc, hcr]
                  exact List.suffix_cons _ _
                · rw [if_neg hcc]
            exact (skipWsCommaWs_suffix _).trans ((hday2.trans
              (List.dropWhile_suffix _)).trans ((hr3.trans hr1).trans hr0))

theorem mem_rstripBy {p : Char → Bool} {x : Char} {l : Str}
    (h : x ∈ rstripBy p l) : x ∈ l := by
  unfold rstripBy at h
  rw [List.mem_reverse] at h
  exact List.mem_reverse.mp ((List.dropWhile_sublist p).mem h)

theorem mem_pyStrip {x : Char} {l : Str} (h : x ∈ pyStrip l) : x ∈ l :=
  (List.dropWhile_sublist pySpace).mem (mem_rstripBy h)

theorem mem_stripCommaEnds {x : Char} {l : Str} (h : x ∈ stripCommaEnds l) : x ∈ l :=
  (List.dropWhile_sublist isCommaCh).mem (mem_rstripBy h)

theorem mem_stripLeadingDate {x : Char} {s : Str} (h : x ∈ stripLeadingDate s) :
    x ∈ s := by
  unfold stripLeadingDate at h
  split at h
  case isTrue ht =>
    rw [ht] at h
    exact absurd h (by simp)
  case isFalse =>
    have h4 := (p4Strip_suffix (p3Strip (p2Strip (p1Strip s)))).sublist
    have h3 := (p3Strip_suffix (p2Strip (p1Strip s))).sublist
    have h2 := (p2Strip_suffix (p1Strip s)).sublist
    have h1 := (p1Strip_suffix s).sublist
    exact h1.mem (h2.mem (h3.mem (h4.mem (mem_pyStrip h))))

theorem isColonCh_dChar (k : Nat) : isColonCh (dChar k) = false := by
  have h10 : k % 10 = 0 ∨ k % 10 = 1 ∨ k % 10 = 2 ∨ k % 10 = 3 ∨ k % 10 = 4 ∨
      k % 10 = 5 ∨ k % 10 = 6 ∨ k % 10 = 7 ∨ k % 10 = 8 ∨ k % 10 = 9 := by omega
  unfold dChar
  rcases h10 with h|h|h|h|h|h|h|h|h|h <;> rw [h] <;> decide

theorem fmtDate_no_colon {c : Char} {dt : Date} (h : c ∈ fmtDate dt) :
    isColonCh c = false := by
  unfold fmtDate at h
  simp only [List.mem_cons, List.not_mem_nil, or_false] at h
  rcases h with h|h|h|h|h|h|h|h|h|h <;> subst h <;>
    first
    | exact isColonCh_dChar _
    | decide

theorem splitAtFirstColon_none {s : Str} (h : ∀ c ∈ s, isColonCh c = false) :
    splitAtFirstColon s = none := by
  induction s with
  | nil => rfl
  | cons c rest ih =>
    unfold splitAtFirstColon
    rw [if_neg (by simp [h c (List.mem_cons_self c rest)])]
    rw [ih (fun x hx => h x (List.mem_cons_of_mem _ hx))]

theorem matchIsoHead_suffix {t cand r : Str} (h : matchIsoHead t = some (cand, r)) :
    r <:+ t := by
  unfold matchIsoHead at h
  split at h
  case h_2 => exact absurd h (by simp)
  case h_1 a b c d s1 e f s2 g hh rest =>
    split at h
    case isFalse => exact absurd h (by simp)
    case isTrue =>
      cases h
      exact ⟨[a, b, c, d, s1, e, f, s2, g, hh], rfl⟩

theorem matchCase1_none {hd : Str} (h : ∀ c ∈ hd, isColonCh c = false) :
    matchCase1 hd = none := by
  unfold matchCase1
  generalize hm : matchIsoHead (hd.dropWhile pySpace) = m
  cases m with
  | none => rfl
  | some cr =>
    obtain ⟨cand, r⟩ := cr
    dsimp only
    have hsub : r.Sublist hd :=
      ((matchIsoHead_suffix hm).sublist).trans (List.dropWhile_sublist pySpace)
    rw [splitAtFirstColon_none (fun x hx => h x (hsub.mem hx))]

theorem m2Go_none {s : Str} (h : ∀ c ∈ s, isColonCh c = false) (pref : Str) :
    m2Go pref s = none := by
  induction s generalizing pref with
  | nil => rfl
  | cons c rs ih =>
    unfold m2Go
    rw [if_neg (by simp [h c (List.mem_cons_self c rs)])]
    exact ih (fun x hx => h x (List.mem_cons_of_mem _ hx)) _

theorem mem_norm_tail {c : Char} {date broker : Str}
    (hc : c ∈ (if broker = [] then date else date ++ [','] ++ broker))
    (hd : ∀ x ∈ date, isColonCh x = false)
    (hb : ∀ x ∈ broker, isColonCh x = false) : isColonCh c = false := by
  split at hc
  · exact hd c hc
  · rcases List.mem_append.mp hc with h1 | h2
    · rcases List.mem_append.mp h1 with h3 | h4
      · exact hd c h3
      · rw [List.mem_singleton.mp h4]
        decide
    · exact hb c h2

theorem if_mem_no_colon {b : Bool} {u v : Str}
    (hu : ∀ x ∈ u, isColonCh x = false) (hv : ∀ x ∈ v, isColonCh x = false) :
    ∀ x ∈ (if b = true then u else v), isColonCh x = false := by
  cases b
  · rw [if_neg (by simp)]
    exact hv
  · rw [if_pos rfl]
    exact hu

theorem normalize_no_colon (header summary : Str) (cleaned : Option Str)
    (fr : Str) (R : Date) (hfr : strptimeYMD fr = some R)
    (hnc : ∀ c ∈ header, isColonCh c = false) :
    ∀ c ∈ _normalize_header header summary cleaned fr, isColonCh c = false := by
  intro c hc
  have hnc1 : ∀ x ∈ pyStrip header, isColonCh x = false :=
    fun x hx => hnc x (mem_pyStrip hx)
  have hfrnc : ∀ x ∈ fr, isColonCh x = false :=
    fun x hx => fmtDate_no_colon ((strptimeYMD_some hfr).2 ▸ hx)
  have hbr : ∀ x ∈ stripCommaEnds (pyStrip (stripLeadingDate (pyStrip header))),
      isColonCh x = false :=
    fun x hx => hnc1 x (mem_stripLeadingDate (mem_pyStrip (mem_stripCommaEnds hx)))
  unfold _normalize_header at hc
  dsimp only at hc
  rw [hfr, matchCase1_none hnc1] at hc
  dsimp only at hc
  rw [show m2Match (pyStrip header) = none from m2Go_none hnc1 []] at hc
  dsimp only at hc
  rw [if_pos rfl] at hc
  generalize hd2 : genericDateIso (pyStrip header) summary cleaned = d2 at hc
  cases d2 with
  | none =>
    dsimp only at hc
    exact mem_norm_tail hc hfrnc hbr
  | some di =>
    dsimp only at hc
    obtain ⟨dt, _, hdi⟩ := genericDateIso_valid hd2
    have hdinc : ∀ x ∈ di, isColonCh x = false :=
      fun x hx => fmtDate_no_colon (hdi ▸ hx)
    exact mem_norm_tail hc (if_mem_no_colon hdinc hfrnc) hbr

theorem specCandidateDate_valid {header summary : Str} {cleaned : Option Str}
    {c : Date} (h : specCandidateDate header summary cleaned = some c) :
    isValidDate c.y c.m c.d = true := by
  unfold specCandidateDate at h
  split at h
  case h_1 cgg hm => exact (strptimeYMD_some h).1
  case h_2 =>
    obtain ⟨di, _, h2⟩ := Option.bind_eq_some.mp h
    exact (strptimeYMD_some h2).1

/-- C8: the normalization path is total with defined fallbacks.  Over any
summary text the date field of the record (the first ten characters of the
normalized header) always parses back as a date; the empty summary string
splits into an empty header and an empty bullet list; and a header with no
colon character (in particular the empty header) yields a normalized header
with no colon, i.e. the title degrades to empty instead of erroring. -/
theorem claim_C8 (summary header : Str) (cleaned : Option Str) (fr : Str)
    (R : Date) (hfr : strptimeYMD fr = some R) :
    (strptimeYMD ((normalizeSummary fr summary cleaned).1.take 10)).isSome = true ∧
    _split_header_and_bullets [] = ([], []) ∧
    ((∀ c ∈ header, isColonCh c = false) →
      ∀ c ∈ _normalize_header header summary cleaned fr, isColonCh c = false) := by
  refine ⟨?_, by decide, fun hnc => normalize_no_colon header summary cleaned fr R hfr hnc⟩
  unfold normalizeSummary
  dsimp only
  rw [normalize_date_field (_split_header_and_bullets summary).1 summary cleaned fr R hfr]
  cases hsc : specCandidateDate (_split_header_and_bullets summary).1 summary cleaned with
  | none =>
    dsimp only
    rw [hfr]
    rfl
  | some cd =>
    dsimp only
    by_cases hw : within14 cd R = true
    · rw [if_pos hw]
      obtain ⟨cy, cm, cdd⟩ := cd
      rw [strptimeYMD_fmtDate (specCandidateDate_valid hsc)]
      rfl
    · rw [if_neg hw]
      rw [hfr]
      rfl

/-- Concrete instantiation of the C8 fallback theorem at the reference date
2025-09-05 and a dateless, colon-free summary. -/
theorem claim_C8_witness :
    strptimeYMD "2025-09-05".data = some ⟨2025, 9, 5⟩ ∧
    (strptimeYMD ((normalizeSummary "2025-09-05".data
        "Broker note without separator".data none).1.take 10)).isSome = true :=
  ⟨by decide, (claim_C8 "Broker note without separator".data "anything".data none
    "2025-09-05".data ⟨2025, 9, 5⟩ (by decide)).1⟩

theorem startsW_append (pre r : Str) : startsW pre (pre ++ r) = true := by
  unfold startsW
  rw [List.take_left]
  simp

theorem startsW_head {pre : Str} {p : Char} {pr : Str} (hpre : pre = p :: pr)
    {c : Char} {t : Str} (h : startsW pre (c :: t) = true) : c = p := by
  subst hpre
  unfold startsW at h
  rw [decide_eq_true_eq] at h
  simp only [List.length_cons, List.take_succ_cons] at h
  injection h with h1 _

theorem startsW_false_of_head {pre : Str} {p : Char} {pr : Str}
    (hpre : pre = p :: pr) {d : Char} (hne : ¬ d = p) (s : Str) :
    startsW pre (d :: s) = false := by
  subst hpre
  unfold startsW
  rw [decide_eq_false]
  intro hcon
  simp only [List.length_cons, List.take_succ_cons] at hcon
  injection hcon with h1 _
  exact hne h1

theorem specBulletRule_startsW {ln b : Str} (h : specBulletRule ln = some b) :
    startsW "- ".data b = true := by
  unfold specBulletRule at h
  dsimp only at h
  split_ifs at h with h1 h2 h3 h4 h5
  · cases h
    exact h2
  · cases h
    exact startsW_append "- ".data _
  · cases h
    exact startsW_append "- ".data _

theorem split_bullets_startsW {s b : Str} (h : b ∈ (_split_header_and_bullets s).2) :
    startsW "- ".data b = true := by
  unfold _split_header_and_bullets at h
  dsimp only at h
  split at h
  case h_1 => exact absurd h (by simp)
  case h_2 i hi =>
    dsimp only at h
    rw [foldl_pushBulletAcc, List.nil_append] at h
    obtain ⟨ln, _, hr⟩ := List.mem_filterMap.mp h
    exact specBulletRule_startsW hr

theorem bullet_not_link {s b : Str} (h : b ∈ (_split_header_and_bullets s).2) :
    startsW "[Report Link](".data b = false := by
  have hd := split_bullets_startsW h
  cases b with
  | nil => exact absurd hd (by decide)
  | cons c t =>
    have hc : c = '-' := startsW_head rfl hd
    subst hc
    exact startsW_false_of_head rfl (by decide) t

theorem itemBlock_filter_link (friday : Str) (it : BuildItem) :
    (itemBlock friday it).filter (fun l => startsW "[Report Link](".data l) =
      (if readOk it = true then [linkLine friday it.file_id] else []) := by
  unfold itemBlock readOk
  generalize it.readResult = res
  cases res with
  | error e => simp
  | ok summary =>
    dsimp only
    rw [if_pos rfl]
    have h0 : startsW "[Report Link](".data ([] : Str) = false := by decide
    have h2 : startsW "[Report Link](".data
        ("**".data ++ _normalize_header (_split_header_and_bullets summary).1
          summary it.cleaned friday ++ "**".data) = false := by
      show startsW "[Report Link](".data ('*' :: ('*' :: _)) = false
      exact startsW_false_of_head rfl (by decide) _
    have hlink : startsW "[Report Link](".data (linkLine friday it.file_id) = true := by
      unfold linkLine
      exact startsW_append _ _
    rw [List.filter_append, List.filter_append]
    have hbul : ((if (_split_header_and_bullets summary).2 = [] then []
        else (_split_header_and_bullets summary).2 ++ [[]]) : List Str).filter
          (fun l => startsW "[Report Link](".data l) = [] := by
      split
      · rfl
      · rw [List.filter_append]
        have hb : ((_split_header_and_bullets summary).2).filter
            (fun l => startsW "[Report Link](".data l) = [] := by
          rw [List.filter_eq_nil_iff]
          intro b hb
          simp [bullet_not_link hb]
        rw [hb]
        simp [List.filter_cons, h0]
    rw [hbul]
    simp only [List.filter_cons, List.filter_nil, h0, h2, hlink]
    simp

theorem foldl_blocks_filter (friday : Str) (items : List BuildItem)
    (acc : List Str) :
    (items.foldl (fun a it => a ++ itemBlock friday it) acc).filter
        (fun l => startsW "[Report Link](".data l) =
      acc.filter (fun l => startsW "[Report Link](".data l) ++
        (items.filter (fun it => readOk it)).map
          (fun it => linkLine friday it.file_id) := by
  induction items generalizing acc with
  | nil => simp
  | cons x t ih =>
    rw [List.foldl_cons, ih, List.filter_append, itemBlock_filter_link,
      List.filter_cons]
    by_cases hx : readOk x = true
    · simp [hx, List.append_assoc]
    · simp [hx]

/-- C9: the assembler renders exactly one block per readable pair, in
exactly the order of the input list, applying no sorting of its own before
render — the sequence of report-link lines in the rendered line list is
the input list filtered to its readable pairs, in input order; a concrete
input given in reverse alphabetical order of item ids is rendered in that
same input order; and the final markdown is those lines joined,
right-stripped, with a final newline. -/
theorem claim_C9 :
    (∀ (friday : Str) (items : List BuildItem),
      (highlightsLines friday items).filter
          (fun l => startsW "[Report Link](".data l) =
        (items.filter (fun it => readOk it)).map
          (fun it => linkLine friday it.file_id)) ∧
    (highlightsLines "2025-09-05".data
        [⟨"b".data, Except.ok "B header: x\n- b1".data, none⟩,
         ⟨"a".data, Except.ok "A header: y\n- a1".data, none⟩]).filter
        (fun l => startsW "[Report Link](".data l) =
      [linkLine "2025-09-05".data "b".data,
       linkLine "2025-09-05".data "a".data] ∧
    (∀ (friday : Str) (items : List BuildItem),
      build_highlights_md friday items =
        pyRstrip (joinLines (highlightsLines friday items)) ++ ['\n']) := by
  refine ⟨fun friday items => ?_, by decide, fun friday items => rfl⟩
  unfold highlightsLines
  rw [foldl_blocks_filter]
  have h0 : startsW "[Report Link](".data ([] : Str) = false := by decide
  have h1 : startsW "[Report Link](".data
      ("# Sellside highlights for Week – ".data ++ friday) = false := by
    show startsW "[Report Link](".data ('#' :: _) = false
    exact startsW_false_of_head rfl (by decide) _
  simp only [List.filter_cons, List.filter_nil, h0, h1]
  simp

end Sellside

